import Mathlib

/-!
Verification of the UPS Monitor integration (custom_components/ups_monitor):
a shallow embedding of its pure state-update, discovery, status-derivation,
URL, seed-retry, reconnect-loop and command-dispatch logic, with theorems
settling the specification claims.
-/

namespace Ups

/-- JSON values as delivered by the server and handled by the integration.
Numbers are idealized as rationals (JSON numeric literals). -/
inductive Json where
  | jnull
  | jbool (b : Bool)
  | jnum (q : Rat)
  | jstr (s : String)
  | jarr (xs : List Json)
  | jobj (fs : List (String × Json))

/-- Python exception kinds raised by the embedded code paths. -/
inductive PyErr where
  | valueError
  | typeError
  | attributeError
  | overflowError
deriving DecidableEq

/-- Python truthiness of a JSON value (`if not x`). -/
def truthy : Json → Bool
  | .jnull => false
  | .jbool b => b
  | .jnum q => q != 0
  | .jstr s => s != ""
  | .jarr xs => !xs.isEmpty
  | .jobj fs => !fs.isEmpty

/-- Whether a JSON value is hashable in Python (usable as a dict key):
lists and dicts are not. -/
def hashable : Json → Bool
  | .jarr _ => false
  | .jobj _ => false
  | _ => true

/-- Equality test on atomic (hashable) JSON values; `false` on containers.
It agrees with propositional equality whenever one side is hashable
(`atomEq_true_iff`), which covers every Python dict-key comparison. -/
def atomEq : Json → Json → Bool
  | .jnull, .jnull => true
  | .jbool a, .jbool b => a == b
  | .jnum a, .jnum b => decide (a = b)
  | .jstr a, .jstr b => a == b
  | _, _ => false

/-- Python `in` over a list of JSON values, comparing with `atomEq`. -/
def pyMem (v : Json) : List Json → Bool
  | [] => false
  | x :: xs => atomEq x v || pyMem v xs

/-- Lookup of a string key in a JSON object's field list (Python `dict.get`). -/
def jlookup : List (String × Json) → String → Option Json
  | [], _ => none
  | (k, v) :: rest, key => if k = key then some v else jlookup rest key

theorem atomEq_true_iff (a b : Json) (h : hashable a = true) :
    atomEq a b = true ↔ a = b := by
  cases a <;> cases b <;> simp_all [atomEq, hashable]

/-! ## Snapshot Store: `_update_state` in `__init__.py`

The store's device mapping is a Python dict; we embed it as an ordered
association list with `atomEq`-keyed access (Python dict keys are compared
by value equality and must be hashable). -/

/-- `devices_dict[name] = device`: replace the value of an existing key in
place (Python keeps the original key object), else append a new binding. -/
def dictInsert : List (Json × Json) → Json → Json → List (Json × Json)
  | [], k, v => [(k, v)]
  | (k1, v1) :: rest, k, v =>
    if atomEq k1 k then (k1, v) :: rest else (k1, v1) :: dictInsert rest k v

/-- `devices_dict.get(name)`: first binding whose key equals `k`. -/
def dictLookup : List (Json × Json) → Json → Option Json
  | [], _ => none
  | (k1, v1) :: rest, k => if atomEq k1 k then some v1 else dictLookup rest k

/-- The dict's keys in insertion order. -/
def dictKeys (d : List (Json × Json)) : List Json := d.map Prod.fst

/-- Dict invariant: every key is hashable. -/
def keysHashable (d : List (Json × Json)) : Bool := d.all (fun p => hashable p.1)

/-- Dict invariant: no two bindings have equal keys. -/
def keysDistinct : List (Json × Json) → Bool
  | [] => true
  | (k, _) :: rest => !pyMem k (dictKeys rest) && keysDistinct rest

/-- `device.get("device_name")`: raises `AttributeError` on a non-dict entry;
a missing key yields `None` (here `jnull`). -/
def entryName : Json → Except PyErr Json
  | .jobj fs => .ok ((jlookup fs "device_name").getD .jnull)
  | _ => .error .attributeError

/-- The device loop of `_update_state`: for each entry, read `device_name`
(raising on non-dict entries), skip falsy names, store the entry under its
name (raising `TypeError` on unhashable names), and record the updated
names in order. -/
def updateDevices :
    List (Json × Json) → List Json → Except PyErr (List (Json × Json) × List Json)
  | d, [] => .ok (d, [])
  | d, e :: rest =>
    match entryName e with
    | .error er => .error er
    | .ok name =>
      if truthy name then
        if hashable name then
          match updateDevices (dictInsert d name e) rest with
          | .ok (d2, ns) => .ok (d2, name :: ns)
          | .error er => .error er
        else .error .typeError
      else updateDevices d rest

/-- `_update_state` as a whole: a payload that fails JSON decoding (`none`)
is dropped with no store change; a decoded non-list yields zero devices;
a list is applied by `updateDevices`. -/
def update_state (d : List (Json × Json)) (payload : Option Json) :
    Except PyErr (List (Json × Json) × List Json) :=
  match payload with
  | none => .ok (d, [])
  | some data =>
    let devices_list := match data with | .jarr xs => xs | _ => []
    updateDevices d devices_list

/-- The `device_name` value of an entry, `jnull` for non-objects or when
absent (total analysis helper). -/
def entryNameD : Json → Json
  | .jobj fs => (jlookup fs "device_name").getD .jnull
  | _ => .jnull

/-- An entry that `updateDevices` processes without raising: a JSON object
whose `device_name`, when truthy, is hashable. -/
def goodEntry : Json → Bool
  | .jobj fs =>
    let n := (jlookup fs "device_name").getD .jnull
    !truthy n || hashable n
  | _ => false

/-- The last entry of the list that writes key `k` (truthy, hashable name
equal to `k`), if any. -/
def lastWrite : List Json → Json → Option Json
  | [], _ => none
  | e :: rest, k =>
    match lastWrite rest k with
    | some v => some v
    | none =>
      match e with
      | .jobj fs =>
        let n := (jlookup fs "device_name").getD .jnull
        if truthy n && hashable n && atomEq n k then some (Json.jobj fs) else none
      | _ => none

/-- The `updated_names` list produced by a raise-free run of the loop. -/
def collectNames : List Json → List Json
  | [] => []
  | e :: rest =>
    match e with
    | .jobj fs =>
      let n := (jlookup fs "device_name").getD .jnull
      if truthy n then n :: collectNames rest else collectNames rest
    | _ => collectNames rest

/-- The keys a raise-free run appends to a dict whose key list is `seen`,
in first-write order. -/
def newKeys : List Json → List Json → List Json
  | [], _ => []
  | e :: rest, seen =>
    match e with
    | .jobj fs =>
      let n := (jlookup fs "device_name").getD .jnull
      if truthy n && !pyMem n seen then n :: newKeys rest (seen ++ [n])
      else newKeys rest seen
    | _ => newKeys rest seen

/-! ## Status derivation: `get_ups_status` in `helpers.py`

The device record is modelled at the granularity the function reads: its
`attributes` dict with string values (the source applies `str()` to the
raw values; on the string-typed status fields that is the identity, and a
missing key defaults to `""`). `none` models a falsy device
(`if not device`). -/

/-- A device record as read by `get_ups_status`: its attributes mapping. -/
structure StatusDevice where
  attributes : List (String × String)
deriving DecidableEq

/-- Lookup in a string-valued attributes dict. -/
def lookupStr : List (String × String) → String → Option String
  | [], _ => none
  | (k, v) :: rest, key => if k = key then some v else lookupStr rest key

/-- The substring tokens whose presence in the lowercased status marks the
UPS as on battery. -/
def ON_BATTERY_TOKENS : List String := ["onbatt", "on battery", "ob", "on_battery"]

/-- The lowercased `xon_battery` values treated as true. -/
def XON_TRUTHY : List String := ["1", "true", "yes"]

/-- Python `str.lower` (ASCII case mapping suffices for the attribute
vocabulary involved), written so that it reduces on literals. -/
def pyToLower (s : String) : String := String.mk (s.data.map Char.toLower)

/-- Whether `needle` starts `hay` (character-list version). -/
def startsWithChars : List Char → List Char → Bool
  | _, [] => true
  | [], _ :: _ => false
  | h :: t, n :: ns => h == n && startsWithChars t ns

/-- Whether `needle` occurs contiguously inside `hay` (Python `in` on
strings, character-list version). -/
def containsChars : List Char → List Char → Bool
  | [], needle => needle.isEmpty
  | h :: t, needle => startsWithChars (h :: t) needle || containsChars t needle

/-- Python `needle in hay` on strings. -/
def strContainsSub (hay needle : String) : Bool :=
  containsChars hay.toList needle.toList

/-- `get_ups_status`: `"offline"` for a falsy device; `"On Battery"` when
the lowercased status contains one of the battery tokens or the lowercased
`xon_battery` is a truthy marker; `"Online"` otherwise. -/
def get_ups_status (device : Option StatusDevice) : String :=
  match device with
  | none => "offline"
  | some d =>
    let status_raw := pyToLower ((lookupStr d.attributes "status").getD "")
    let xon := pyToLower ((lookupStr d.attributes "xon_battery").getD "")
    let on_battery :=
      (ON_BATTERY_TOKENS.any fun t => strContainsSub status_raw t) ||
        decide (xon ∈ XON_TRUTHY)
    if on_battery then "On Battery" else "Online"

/-! ## Discovery: `_maybe_add_entities` in `sensor.py` and `button.py`

Each platform holds a per-connection `added` set of facet keys and, on
every reconciliation pass, walks the store's devices, builds candidate
keys (filtered by the configured allow-list), and emits exactly the
candidates not yet in `added`, inserting them as it goes. -/

/-- A stored device as the discovery passes read it: its `"type"` field
(if present) and its `attributes` mapping (`device.get("attributes") or {}`
makes a falsy/missing value the empty mapping). -/
structure DiscDevice where
  dtype : Option Json
  attributes : List (String × Json)

/-- A UPS command button description (`ButtonDescription` in `button.py`). -/
structure ButtonDescription where
  key : String
  name : String
  icon : String
  command : String
  device_types : List String

/-- `BUTTON_DESCRIPTIONS`: the seven NUT command buttons. -/
def BUTTON_DESCRIPTIONS : List ButtonDescription :=
  [⟨"beeper_enable", "Enable Beeper", "mdi:volume-high", "beeper.enable", ["nut"]⟩,
   ⟨"beeper_disable", "Disable Beeper", "mdi:volume-off", "beeper.disable", ["nut"]⟩,
   ⟨"beeper_mute", "Mute Beeper", "mdi:volume-mute", "beeper.mute", ["nut"]⟩,
   ⟨"test_battery_start", "Start Battery Test", "mdi:battery-sync",
     "test.battery.start", ["nut"]⟩,
   ⟨"test_battery_stop", "Stop Battery Test", "mdi:battery-check",
     "test.battery.stop", ["nut"]⟩,
   ⟨"load_off", "Turn Off Load", "mdi:power-plug-off", "load.off", ["nut"]⟩,
   ⟨"load_on", "Turn On Load", "mdi:power-plug", "load.on", ["nut"]⟩]

/-- Insert a string into a sorted list (for `sorted(attrs.keys())`). -/
def insertSorted (x : String) : List String → List String
  | [] => [x]
  | y :: ys => if x ≤ y then x :: y :: ys else y :: insertSorted x ys

/-- `sorted` on a list of strings. -/
def sortStrings (l : List String) : List String := l.foldr insertSorted []

/-- The sensor platform's candidate facet keys for one device, in the order
the source considers them: the status key first, then one key per
attribute name in sorted order, the literal `status` attribute excluded. -/
def sensorCandidates (device_name : String) (d : DiscDevice) : List String :=
  (device_name ++ "-status") ::
    (((sortStrings (d.attributes.map Prod.fst)).filter fun a => a ≠ "status").map
      fun a => device_name ++ "-" ++ a)

/-- Python `value in tuple_of_strings` for a JSON value. -/
def jsonInStrs (v : Json) (l : List String) : Bool :=
  match v with
  | .jstr s => l.contains s
  | _ => false

/-- The button platform's candidate facet keys for one device: one key per
button description whose `device_types` contains the device's type
(`device.get("type", "nut")`). -/
def buttonCandidates (entry_id device_name : String) (d : DiscDevice) : List String :=
  (BUTTON_DESCRIPTIONS.filter fun desc =>
      jsonInStrs (d.dtype.getD (.jstr "nut")) desc.device_types).map
    fun desc => entry_id ++ "-" ++ device_name ++ "-" ++ desc.key

/-- `if configured_names and device_name not in configured_names: continue`:
a device is considered when the allow-list is empty or contains it. -/
def allowedDevice (configured : List String) (device_name : String) : Bool :=
  configured.isEmpty || configured.contains device_name

/-- The shared candidate walk: each candidate key already in `added` is
skipped; otherwise it is inserted into `added` and emitted. Returns the
final `added` set and the emitted keys in order. -/
def processCands (added : List String) : List String → List String × List String
  | [] => (added, [])
  | k :: ks =>
    if k ∈ added then processCands added ks
    else
      let r := processCands (k :: added) ks
      (r.1, k :: r.2)

/-- One `_maybe_add_entities` pass over the store for a generic candidate
function: allow-list filtering, then the candidate walk in device order. -/
def discoveryPass (candFn : String → DiscDevice → List String)
    (devices : List (String × DiscDevice)) (configured : List String)
    (added : List String) : List String × List String :=
  processCands added
    ((devices.filter fun p => allowedDevice configured p.1).flatMap fun p => candFn p.1 p.2)

/-- A sequence of reconciliation passes (one per dispatcher signal), each
over the store contents and allow-list current at that time, threading the
platform's `added` set through and concatenating the emissions. -/
def runPasses (candFn : String → DiscDevice → List String) :
    List (List (String × DiscDevice) × List String) → List String →
      List String × List String
  | [], added => (added, [])
  | (devs, conf) :: rest, added =>
    let r1 := discoveryPass candFn devs conf added
    let r2 := runPasses candFn rest r1.1
    (r2.1, r1.2 ++ r2.2)

/-- The sensor platform's pass sequence. -/
def sensorRun :
    List (List (String × DiscDevice) × List String) → List String →
      List String × List String :=
  runPasses sensorCandidates

/-- The button platform's pass sequence for one config entry. -/
def buttonRun (entry_id : String) :
    List (List (String × DiscDevice) × List String) → List String →
      List String × List String :=
  runPasses (buttonCandidates entry_id)

/-! ## Seed fetch retry loop in `async_setup_entry` (`__init__.py`)

The loop fetches at most `max_retries = 3` times; a fetch result is the
JSON list a successful HTTP call returned (empty on any failure). After a
non-empty fetch it collects the truthy `device_name` fields (raising on
non-object entries, as the source comprehension would) and stops early
when no configured name is missing; otherwise it sleeps 1 s — except after
the final attempt — and retries. -/

/-- Whether a JSON value is an object. -/
def isObj : Json → Bool
  | .jobj _ => true
  | _ => false

/-- `allObj l`: every entry of the fetched list is a JSON object. -/
def allObj (l : List Json) : Bool := l.all isObj

/-- The comprehension `{d.get("device_name") for d in initial_data if
d.get("device_name")}` (list-valued; only membership is used). -/
def seedNames : List Json → Except PyErr (List Json)
  | [] => .ok []
  | e :: rest =>
    match e with
    | .jobj fs =>
      let n := (jlookup fs "device_name").getD .jnull
      (seedNames rest).map fun ns => if truthy n then n :: ns else ns
    | _ => .error .attributeError

/-- The truthy `device_name` values of the object entries (the raise-free
value of `seedNames`). -/
def fetchedNames : List Json → List Json
  | [] => []
  | e :: rest =>
    match e with
    | .jobj fs =>
      let n := (jlookup fs "device_name").getD .jnull
      if truthy n then n :: fetchedNames rest else fetchedNames rest
    | _ => fetchedNames rest

/-- `missing_devices = configured_names - device_names_in_data`. -/
def missingNames (configured : List String) (names : List Json) : List String :=
  configured.filter fun n => !pyMem (.jstr n) names

/-- Observable outcome of the retry loop: the final `initial_data`, the
number of `_fetch_initial_status` calls, and the number of 1-second sleeps. -/
structure SeedResult where
  data : List Json
  fetchCount : Nat
  sleeps : Nat

/-- The retry loop from a given attempt index with `remaining` attempts
left (`prev` is the previous `initial_data`, returned if attempts run
out). -/
def seedLoopFrom (configured : List String) (fetches : Nat → List Json) :
    Nat → Nat → List Json → Nat → Nat → Except PyErr SeedResult
  | _, 0, prev, cnt, slp => .ok ⟨prev, cnt, slp⟩
  | attempt, r + 1, _, cnt, slp =>
    let data := fetches attempt
    if data.isEmpty then
      seedLoopFrom configured fetches (attempt + 1) r data (cnt + 1)
        (if r = 0 then slp else slp + 1)
    else
      match seedNames data with
      | .error er => .error er
      | .ok names =>
        if (missingNames configured names).isEmpty then .ok ⟨data, cnt + 1, slp⟩
        else
          seedLoopFrom configured fetches (attempt + 1) r data (cnt + 1)
            (if r = 0 then slp else slp + 1)

/-- The seed retry loop: `for attempt in range(max_retries)` with
`max_retries = 3`, `fetches i` being what `_fetch_initial_status` returns
on the `i`-th call. -/
def seedLoop (configured : List String) (fetches : Nat → List Json) :
    Except PyErr SeedResult :=
  seedLoopFrom configured fetches 0 3 [] 0 0

/-- The loop's early-stop condition on one fetch result: non-empty data
with no configured name missing. -/
def stopCond (configured : List String) (l : List Json) : Bool :=
  (!l.isEmpty) && (missingNames configured (fetchedNames l)).isEmpty

/-- The number of fetches the loop performs, by cases on where the
early-stop condition first holds. -/
def seedCount (configured : List String) (fetches : Nat → List Json) : Nat :=
  if stopCond configured (fetches 0) then 1
  else if stopCond configured (fetches 1) then 2
  else 3

/-- The device snapshot named `a` in the specification's seed scenario. -/
def devA : Json := .jobj [("device_name", .jstr "a")]

/-- The device snapshot named `b` in the specification's seed scenario. -/
def devB : Json := .jobj [("device_name", .jstr "b")]

/-- The specification's fetch sequence `[a], [a], [a, b]`. -/
def seedScenario : Nat → List Json
  | 0 => [devA]
  | 1 => [devA]
  | _ + 2 => [devA, devB]

/-! ## Endpoint address conversion: `build_http_url` in `helpers.py`

`urllib.parse.urlparse` / `urlunparse` are modelled at the fidelity the
function uses: scheme extraction (a leading run of scheme characters
before the first `:`, lowercased) and network-location extraction (after
`//`, up to the first of `/?#`); the parsed path is never read by
`build_http_url`, which substitutes its own. -/

/-- Characters allowed in a URL scheme after the leading letter. -/
def schemeCharOk (c : Char) : Bool :=
  c.isAlphanum || c == '+' || c == '-' || c == '.'

/-- Split a character list at its first `:`, if any. -/
def splitAtColon : List Char → Option (List Char × List Char)
  | [] => none
  | c :: cs =>
    if c = ':' then some ([], cs)
    else
      match splitAtColon cs with
      | some (a, b) => some (c :: a, b)
      | none => none

/-- Scheme extraction as in `urllib.parse.urlsplit`: a non-empty prefix of
scheme characters starting with a letter, before a `:`; lowercased. When
absent the scheme is `""` and the input is untouched. -/
def pysplitScheme (s : String) : String × String :=
  match splitAtColon s.data with
  | some (pre, post) =>
    if pre ≠ [] ∧ (pre.headD ' ').isAlpha ∧ pre.all schemeCharOk
    then (String.mk (pre.map Char.toLower), String.mk post)
    else ("", s)
  | none => ("", s)

/-- Split a character list at the first of `/`, `?`, `#` (netloc end). -/
def takeNetloc : List Char → List Char × List Char
  | [] => ([], [])
  | c :: cs =>
    if c = '/' ∨ c = '?' ∨ c = '#' then ([], c :: cs)
    else
      let r := takeNetloc cs
      (c :: r.1, r.2)

/-- Parsed URL parts used by `build_http_url`. -/
structure UrlParts where
  scheme : String
  netloc : String
  rest : String

/-- `urlparse`, to the extent `build_http_url` reads it. -/
def urlparse (s : String) : UrlParts :=
  let p := pysplitScheme s
  match p.2.data with
  | '/' :: '/' :: cs =>
    let r := takeNetloc cs
    ⟨p.1, String.mk r.1, String.mk r.2⟩
  | _ => ⟨p.1, "", p.2⟩

/-- `urlunparse((scheme, netloc, path, "", "", ""))` as in
`urllib.parse.urlunsplit`. -/
def urlunparse (scheme netloc path : String) : String :=
  let url :=
    if netloc ≠ "" ∨ (path ≠ "" ∧ path.take 2 = "//") then
      "//" ++ netloc ++ (if path ≠ "" ∧ path.take 1 ≠ "/" then "/" ++ path else path)
    else path
  if scheme ≠ "" then scheme ++ ":" ++ url else url

/-- `build_http_url`: empty address rejected; `ws`/`wss` schemes mapped to
`http`/`https`; `http`/`https` kept; any other scheme rejected; the result
reassembled from the original network location and the requested path. -/
def build_http_url (server_url path : String) : Option String :=
  if server_url = "" then none
  else
    let parsed := urlparse server_url
    let scheme := parsed.scheme
    if scheme = "ws" ∨ scheme = "wss" then
      some (urlunparse (if scheme = "ws" then "http" else "https") parsed.netloc path)
    else if scheme = "http" ∨ scheme = "https" then
      some (urlunparse scheme parsed.netloc path)
    else none

/-! ## Stream client loop: `_listen_ws` in `__init__.py`

The loop is modelled as the trace of its observable actions. Each
iteration samples the stop event at the `while` guard (sample `2*i`) and
at the post-body guard (sample `2*i+1`); the scenario under verification
is a connection that terminates (closes or errors) immediately, so each
non-stopped iteration contributes one connect attempt, followed by a
`RECONNECT_DELAY`-second sleep unless the post-body guard sees the stop
signal. A stop signal set during the sleep is seen at the next `while`
guard, which exits without connecting (the sleep itself is not watched).
`fuel` bounds how many iterations of the infinite loop are observed. -/

/-- `RECONNECT_DELAY` from `const.py`. -/
def RECONNECT_DELAY : Nat := 5

/-- Observable actions of the stream-client loop. -/
inductive WsAction where
  | connect
  | sleep (secs : Nat)
  | stopExit
deriving DecidableEq

/-- Whether the stop signal (set from sample `k` on, if ever) is visible
at sample `t`. -/
def stopSeen : Option Nat → Nat → Bool
  | none, _ => false
  | some k, t => k ≤ t

/-- The loop's action trace from iteration `i`, observing at most `fuel`
iterations. -/
def listenIters (stopAt : Option Nat) : Nat → Nat → List WsAction
  | _, 0 => []
  | i, fuel + 1 =>
    if stopSeen stopAt (2 * i) then [.stopExit]
    else
      .connect ::
        (if stopSeen stopAt (2 * i + 1) then listenIters stopAt (i + 1) fuel
         else .sleep RECONNECT_DELAY :: listenIters stopAt (i + 1) fuel)

/-- The loop's action trace from its start. -/
def listenTrace (stopAt : Option Nat) (fuel : Nat) : List WsAction :=
  listenIters stopAt 0 fuel

/-- Number of connect attempts in a trace. -/
def connectCount : List WsAction → Nat
  | [] => 0
  | .connect :: r => connectCount r + 1
  | _ :: r => connectCount r

/-- The never-stopped trace shape: connect, sleep the fixed delay, repeat. -/
def repTrace : Nat → List WsAction
  | 0 => []
  | n + 1 => .connect :: .sleep RECONNECT_DELAY :: repTrace n

/-! ## Command dispatch: `UPSCommandButton.async_press` in `button.py`

The dispatch's observable outcome is the `_last_result` it stores. The
environment is either a completed HTTP exchange (response status plus the
parsed JSON body — a body that fails to parse is a raised exception and
therefore a transport failure) or a transport-level failure whose string
description is `str(err)`. -/

/-- Outcome of the HTTP exchange inside `async_press`. -/
inductive PressOutcome where
  | response (status : Nat) (body : Json)
  | transportError (desc : String)

/-- The text of a raised exception (`str(err)`) for in-handler raises. -/
def errStr : PyErr → String
  | .valueError => "ValueError"
  | .typeError => "TypeError"
  | .attributeError => "AttributeError"
  | .overflowError => "OverflowError"

/-- The description a bare timeout carries: `str(asyncio.TimeoutError())`
is the empty string, so the ten-second command timeout surfaces with no
message text. -/
def timeoutErrStr : String := ""

/-- The Command Result (`_last_result`) stored by `async_press`: a
non-success status yields a failure carrying the body's `error` text with
the `"unknown error"` fallback (a non-object body makes `result.get`
raise, landing in the generic handler); a success status stores the body
as-is; a transport failure stores a failure carrying its description. -/
def pressResult : PressOutcome → Json
  | .response status body =>
    if 400 ≤ status then
      match body with
      | .jobj fs =>
        .jobj [("success", .jbool false),
               ("error", (jlookup fs "error").getD (.jstr "unknown error"))]
      | _ =>
        .jobj [("success", .jbool false),
               ("error", .jstr (errStr .attributeError))]
    else body
  | .transportError desc =>
    .jobj [("success", .jbool false), ("error", .jstr desc)]

/-! ## Attribute normalization: `normalize_attribute_value` in `helpers.py`

Python floats are modelled as exact rationals plus the two infinities and
NaN. `float()` succeeds on booleans and on numbers small enough for a
double — a Python `int` (an integer-valued JSON number) of magnitude at
least `2^1024 - 2^970` rounds to infinity and raises `OverflowError`,
which the source's `except (ValueError, TypeError)` does not catch; a
JSON float literal was already converted by the JSON parser and never
overflows here. On strings it accepts optional surrounding whitespace, an
optional sign, `inf`/`infinity`/`nan` in any case, and decimal notation
with optional fraction and exponent and with underscores strictly between
digits, raising `ValueError` otherwise and `TypeError` on `None`, lists
and dicts. (CPython first maps Unicode decimal digits and spaces to
ASCII; the model covers the ASCII image of that mapping. Finite values
are kept exact: rounding to the nearest double — under which an oversized
string literal becomes infinity — is idealized away; it does not affect
which values are convertible apart from that mapping.) `round(x, 2)` is
round-half-to-even at two decimal places, passing infinities and NaN
through. -/

/-- A Python float value: finite (exact), infinite, or NaN. -/
inductive PyFloatVal where
  | fin (q : Rat)
  | pinf
  | ninf
  | nan
deriving DecidableEq

/-- The smallest integer magnitude at which `float(int)` raises
`OverflowError`: integers of magnitude at least `2^1024 - 2^970` round to
infinity. -/
def FLOAT_OVERFLOW_BOUND : Int := 2 ^ 1024 - 2 ^ 970

/-- Whether `float()` of this exact numeric value raises `OverflowError`:
only a Python `int` (integer-valued number) too large for a double does. -/
def floatOverflows (q : Rat) : Bool :=
  q.den == 1 && (decide (FLOAT_OVERFLOW_BOUND ≤ q.num)
    || decide (q.num ≤ -FLOAT_OVERFLOW_BOUND))

/-- The numeral value of a digit run (`0` for the empty run). -/
def digitsToNat : List Char → Nat → Nat
  | [], acc => acc
  | c :: cs, acc => digitsToNat cs (acc * 10 + (c.toNat - 48))

/-- No two consecutive underscores. -/
def noDoubleUnderscore : List Char → Bool
  | '_' :: '_' :: _ => false
  | _ :: rest => noDoubleUnderscore rest
  | [] => true

/-- A digit run as `float()` accepts it: possibly empty, and underscores
only strictly between digits. Returns the digits with underscores
removed, or `none` when the run is ill-formed. -/
def cleanDigits (cs : List Char) : Option (List Char) :=
  if cs.isEmpty then some []
  else if (cs.all fun c => c.isDigit || c == '_')
      && (cs.headD '_').isDigit && ((cs.getLast?).getD '_').isDigit
      && noDoubleUnderscore cs
  then some (cs.filter fun c => c != '_')
  else none

/-- Split at the first `.`, if any. -/
def splitAtDot : List Char → Option (List Char × List Char)
  | [] => none
  | c :: cs =>
    if c = '.' then some ([], cs)
    else
      match splitAtDot cs with
      | some (a, b) => some (c :: a, b)
      | none => none

/-- Split at the first `e`/`E`, if any. -/
def splitAtExp : List Char → Option (List Char × List Char)
  | [] => none
  | c :: cs =>
    if c = 'e' ∨ c = 'E' then some ([], cs)
    else
      match splitAtExp cs with
      | some (a, b) => some (c :: a, b)
      | none => none

/-- Leading sign: `-1` for `-`, `1` for `+` or none, plus the remainder. -/
def parseSign : List Char → Rat × List Char
  | '+' :: cs => (1, cs)
  | '-' :: cs => (-1, cs)
  | cs => (1, cs)

/-- Unsigned finite mantissa: a digit run with an optional fractional
part, underscores allowed within each run, at least one digit overall. -/
def parseMantissa (cs : List Char) : Option Rat :=
  match splitAtDot cs with
  | none =>
    match cleanDigits cs with
    | some ds => if ds ≠ [] then some ((digitsToNat ds 0 : Nat) : Rat) else none
    | none => none
  | some (ip, fp) =>
    match cleanDigits ip, cleanDigits fp with
    | some dsi, some dsf =>
      if dsi ≠ [] ∨ dsf ≠ [] then
        some (((digitsToNat dsi 0 : Nat) : Rat) +
          ((digitsToNat dsf 0 : Nat) : Rat) / ((10 : Rat) ^ dsf.length))
      else none
    | _, _ => none

/-- Python `float(string)`: strip whitespace, optional sign, then either
`inf`/`infinity`/`nan` (case-insensitive) or a finite mantissa with an
optional integer exponent. -/
def pyParseFloat (s : String) : Option PyFloatVal :=
  let cs := ((s.data.dropWhile Char.isWhitespace).reverse.dropWhile
    Char.isWhitespace).reverse
  let sgn := parseSign cs
  let low := sgn.2.map Char.toLower
  if low = ['i', 'n', 'f'] ∨ low = ['i', 'n', 'f', 'i', 'n', 'i', 't', 'y'] then
    some (if sgn.1 = -1 then .ninf else .pinf)
  else if low = ['n', 'a', 'n'] then some .nan
  else
    match splitAtExp sgn.2 with
    | none => (parseMantissa sgn.2).map fun m => .fin (sgn.1 * m)
    | some (mant, ex) =>
      match parseMantissa mant with
      | none => none
      | some m =>
        let esgn := parseSign ex
        match cleanDigits esgn.2 with
        | some ds =>
          if ds ≠ [] then
            some (.fin (sgn.1 * m *
              (if esgn.1 = 1 then ((10 : Rat) ^ digitsToNat ds 0)
               else ((10 : Rat) ^ digitsToNat ds 0)⁻¹)))
          else none
        | none => none

/-- Python `float(value)` on a JSON value. -/
def pyFloat : Json → Except PyErr PyFloatVal
  | .jnum q => if floatOverflows q then .error .overflowError else .ok (.fin q)
  | .jbool b => .ok (.fin (if b then 1 else 0))
  | .jstr s =>
    match pyParseFloat s with
    | some x => .ok x
    | none => .error .valueError
  | .jnull => .error .typeError
  | .jarr _ => .error .typeError
  | .jobj _ => .error .typeError

/-- Round to the nearest integer, ties to even (Python `round`). -/
def roundHalfEven (q : Rat) : Int :=
  let f : Int := q.floor
  let r : Rat := q - (f : Rat)
  if r < 1 / 2 then f
  else if 1 / 2 < r then f + 1
  else if f % 2 = 0 then f else f + 1

/-- Python `round(q, 2)` on exact finite values. -/
def pyRound2 (q : Rat) : Rat := ((roundHalfEven (q * 100) : Int) : Rat) / 100

/-- Division of a float value by a positive constant. -/
def pyFloatDiv (x : PyFloatVal) (c : Rat) : PyFloatVal :=
  match x with
  | .fin q => .fin (q / c)
  | x => x

/-- `round(x, 2)` on a float value: infinities and NaN pass through. -/
def pyRound2V : PyFloatVal → PyFloatVal
  | .fin q => .fin (pyRound2 q)
  | x => x

/-- The `numeric_attrs` set of `normalize_attribute_value`. -/
def NUMERIC_ATTRS : List String :=
  ["battery_charge", "load_percentage", "input_voltage", "output_voltage",
   "battery_voltage", "internal_temperature", "real_power", "input_frequency",
   "output_frequency", "battery_current"]

/-- A value as `normalize_attribute_value` returns it: either the input
JSON value passed through unchanged, or a converted float. -/
inductive PyValue where
  | ofJson (v : Json)
  | ofFloat (x : PyFloatVal)

/-- `except (ValueError, TypeError): return value` around a conversion;
any other exception kind propagates. -/
def catchValueType (value : Json) : Except PyErr PyValue → Except PyErr PyValue
  | .ok v => .ok v
  | .error .valueError => .ok (.ofJson value)
  | .error .typeError => .ok (.ofJson value)
  | .error e => .error e

/-- `normalize_attribute_value`, with raising modelled in `Except`: `None`
is returned as-is; `time_left` is converted to minutes rounded to two
decimals; `time_on_battery` and the numeric attributes are converted to
float; conversions failing with `ValueError`/`TypeError` return the value
unchanged, while an `OverflowError` escapes; all other attributes pass
through. -/
def normalizeE (attrName : String) (value : Json) : Except PyErr PyValue :=
  match value with
  | .jnull => .ok (.ofJson .jnull)
  | v =>
    if attrName = "time_left" then
      catchValueType v
        ((pyFloat v).map fun x => .ofFloat (pyRound2V (pyFloatDiv x 60)))
    else if attrName = "time_on_battery" then
      catchValueType v ((pyFloat v).map fun x => .ofFloat x)
    else if attrName ∈ NUMERIC_ATTRS then
      catchValueType v ((pyFloat v).map fun x => .ofFloat x)
    else .ok (.ofJson v)

/-! ## Theorems -/

/-- C2 counterexample: a device whose `status` is `"JOB"` — not `"OB"`,
and with no `xon_battery` attribute — is reported `"On Battery"`, not
`"Online"` as the claim requires, because the source tests the battery
tokens as substrings of the lowercased status. -/
theorem C2_counterexample :
    get_ups_status (some ⟨[("status", "JOB")]⟩) = "On Battery" ∧
      "On Battery" ≠ "Online" ∧
      lookupStr [("status", "JOB")] "status" = some "JOB" ∧
      "JOB" ≠ "OB" ∧
      lookupStr [("status", "JOB")] "xon_battery" = none :=
  ⟨by decide, by decide, rfl, by decide, rfl⟩

/-- C2 (amended): `get_ups_status` returns `"On Battery"` exactly when one
of the tokens `onbatt`, `on battery`, `ob`, `on_battery` occurs as a
substring of the lowercased status or the lowercased `xon_battery` is one
of `1`, `true`, `yes`; otherwise it returns `"Online"` for a present
device; a missing device yields `"offline"`, and `"Online"` is never
returned for an absent device. -/
theorem C2_status_derivation :
    ∀ d : StatusDevice,
      (get_ups_status (some d) = "On Battery" ↔
        ((∃ t ∈ ON_BATTERY_TOKENS,
            strContainsSub (pyToLower ((lookupStr d.attributes "status").getD "")) t
              = true) ∨
          pyToLower ((lookupStr d.attributes "xon_battery").getD "") ∈ XON_TRUTHY))
      ∧ (get_ups_status (some d) = "On Battery" ∨ get_ups_status (some d) = "Online")
      ∧ get_ups_status none = "offline"
      ∧ get_ups_status none ≠ "Online" := by
  intro d
  have hdef : get_ups_status (some d) =
      (if ((ON_BATTERY_TOKENS.any fun t =>
            strContainsSub (pyToLower ((lookupStr d.attributes "status").getD "")) t) ||
          decide (pyToLower ((lookupStr d.attributes "xon_battery").getD "")
            ∈ XON_TRUTHY)) = true
        then "On Battery" else "Online") := rfl
  refine ⟨?_, ?_, rfl, by decide⟩
  · rw [hdef]
    by_cases hb : ((ON_BATTERY_TOKENS.any fun t =>
          strContainsSub (pyToLower ((lookupStr d.attributes "status").getD "")) t) ||
        decide (pyToLower ((lookupStr d.attributes "xon_battery").getD "")
          ∈ XON_TRUTHY)) = true
    · simp only [hb, if_true, true_iff]
      rcases Bool.or_eq_true_iff.mp hb with h | h
      · exact Or.inl (List.any_eq_true.mp h)
      · exact Or.inr (of_decide_eq_true h)
    · simp only [hb, if_false]
      constructor
      · intro h; exact absurd h (by decide)
      · intro h
        exact absurd (Bool.or_eq_true_iff.mpr (h.imp List.any_eq_true.mpr
          decide_eq_true)) hb
  · rw [hdef]
    by_cases hb : ((ON_BATTERY_TOKENS.any fun t =>
          strContainsSub (pyToLower ((lookupStr d.attributes "status").getD "")) t) ||
        decide (pyToLower ((lookupStr d.attributes "xon_battery").getD "")
          ∈ XON_TRUTHY)) = true
    · simp [hb]
    · simp [hb]

/-- C2 witness: the spec's own cases — `status="OB"` and `xon_battery="1"`
map to On Battery, a non-battery status maps to Online, and an absent
device maps to offline. -/
theorem C2_witness :
    get_ups_status (some ⟨[("status", "OB")]⟩) = "On Battery"
    ∧ get_ups_status (some ⟨[("xon_battery", "1")]⟩) = "On Battery"
    ∧ get_ups_status (some ⟨[("status", "OL")]⟩) = "Online"
    ∧ get_ups_status none = "offline" := by
  have h1 := C2_status_derivation ⟨[("status", "OB")]⟩
  have h2 := C2_status_derivation ⟨[("xon_battery", "1")]⟩
  have h3 := C2_status_derivation ⟨[("status", "OL")]⟩
  exact ⟨h1.1.mpr (Or.inl ⟨"ob", by decide, by decide⟩),
    h2.1.mpr (Or.inr (by decide)), by decide, h3.2.2.1⟩

/-- C6: `build_http_url` maps the `ws` scheme to `http` and `wss` to
`https`, passes the `http`/`https` schemes through unchanged, and rejects
an empty address or any other scheme by returning `none`; in each accepted
case the result is reassembled from the original network location and the
requested path. -/
theorem C6_build_http_url :
    ∀ url path : String,
      ((urlparse url).scheme = "ws" →
        build_http_url url path = some (urlunparse "http" (urlparse url).netloc path))
      ∧ ((urlparse url).scheme = "wss" →
        build_http_url url path = some (urlunparse "https" (urlparse url).netloc path))
      ∧ (((urlparse url).scheme = "http" ∨ (urlparse url).scheme = "https") →
        build_http_url url path =
          some (urlunparse (urlparse url).scheme (urlparse url).netloc path))
      ∧ ((urlparse url).scheme ≠ "ws" → (urlparse url).scheme ≠ "wss" →
          (urlparse url).scheme ≠ "http" → (urlparse url).scheme ≠ "https" →
          build_http_url url path = none)
      ∧ build_http_url "" path = none := by
  intro url path
  by_cases hu : url = ""
  · subst hu
    have hs : (urlparse "").scheme = "" := rfl
    refine ⟨?_, ?_, ?_, ?_, rfl⟩ <;> rw [hs]
    · intro h; exact absurd h (by decide)
    · intro h; exact absurd h (by decide)
    · intro h; rcases h with h | h <;> exact absurd h (by decide)
    · intro _ _ _ _; rfl
  · refine ⟨?_, ?_, ?_, ?_, rfl⟩
    · intro h
      simp [build_http_url, hu, h]
    · intro h
      simp [build_http_url, hu, h]
    · intro h
      rcases h with h | h <;> simp [build_http_url, hu, h]
    · intro h1 h2 h3 h4
      simp [build_http_url, hu, h1, h2, h3, h4]

/-- C6 witness: concrete conversions in each accepted and rejected case. -/
theorem C6_witness :
    build_http_url "ws://host:8080/ws" "/api/status"
        = some "http://host:8080/api/status"
    ∧ build_http_url "wss://host/ws" "/api/status" = some "https://host/api/status"
    ∧ build_http_url "https://host/ws" "/api/status" = some "https://host/api/status"
    ∧ build_http_url "ftp://host/x" "" = none
    ∧ build_http_url "" "/api/status" = none := by
  refine ⟨?_, ?_, ?_, ?_, ?_⟩
  · exact ((C6_build_http_url "ws://host:8080/ws" "/api/status").1
      (by decide)).trans (by decide)
  · exact ((C6_build_http_url "wss://host/ws" "/api/status").2.1
      (by decide)).trans (by decide)
  · exact ((C6_build_http_url "https://host/ws" "/api/status").2.2.1
      (Or.inr (by decide))).trans (by decide)
  · exact (C6_build_http_url "ftp://host/x" "").2.2.2.1
      (by decide) (by decide) (by decide) (by decide)
  · exact (C6_build_http_url "x" "/api/status").2.2.2.2

/-- Without a stop signal, every observed iteration of the stream loop is
one connect attempt followed by one fixed-delay sleep. -/
theorem listenIters_no_stop (n : Nat) :
    ∀ i, listenIters none i n = repTrace n := by
  induction n with
  | zero => intro i; rfl
  | succ m ih =>
    intro i
    simp [listenIters, stopSeen, repTrace, ih]

/-- Connect attempts happen exactly at the while-guard samples that
precede the stop signal (sample `2*j` for iteration `j`). -/
theorem connectCount_listenIters (k : Nat) :
    ∀ fuel i, connectCount (listenIters (some k) i fuel)
      = min ((k + 1) / 2 - i) fuel := by
  intro fuel
  induction fuel with
  | zero =>
    intro i
    simp [listenIters, connectCount]
  | succ m ih =>
    intro i
    by_cases h0 : k ≤ 2 * i
    · have hs : stopSeen (some k) (2 * i) = true := by
        simp [stopSeen]; omega
      simp only [listenIters, hs, if_true]
      have : connectCount [WsAction.stopExit] = 0 := rfl
      rw [this]
      omega
    · have hs : stopSeen (some k) (2 * i) = false := by
        simp [stopSeen]; omega
      by_cases h1 : k ≤ 2 * i + 1
      · have hs1 : stopSeen (some k) (2 * i + 1) = true := by
          simp [stopSeen]; omega
        simp only [listenIters, hs, hs1, Bool.false_eq_true, if_false, if_true]
        rw [show ∀ r, connectCount (.connect :: r) = connectCount r + 1 from
          fun r => rfl]
        rw [ih]
        omega
      · have hs1 : stopSeen (some k) (2 * i + 1) = false := by
          simp [stopSeen]; omega
        simp only [listenIters, hs, hs1, Bool.false_eq_true, if_false]
        rw [show ∀ r, connectCount (.connect :: .sleep RECONNECT_DELAY :: r)
            = connectCount r + 1 from fun r => rfl]
        rw [ih]
        omega

/-- C7: without a stop signal the loop's trace is connect / 5-second sleep
repeated indefinitely (one reconnect attempt per disconnect); with a stop
signal first visible at sample `k`, the number of connect attempts ever
made is `min ((k+1)/2) fuel` — in particular no connect happens at or
after the stop — and a stop issued during the first sleep (visible at
sample 2) yields exactly one connect, the interrupted wait, and exit. -/
theorem C7_reconnect_and_stop :
    ∀ (n k fuel : Nat),
      listenTrace none n = repTrace n
      ∧ connectCount (listenTrace (some k) fuel) = min ((k + 1) / 2) fuel
      ∧ listenTrace (some 2) (fuel + 2)
          = [.connect, .sleep RECONNECT_DELAY, .stopExit] := by
  intro n k fuel
  refine ⟨listenIters_no_stop n 0, ?_, ?_⟩
  · have h := connectCount_listenIters k fuel 0
    simpa using h
  · show listenIters (some 2) 0 (fuel + 2) = _
    have h1 : listenIters (some 2) 1 (fuel + 1) = [.stopExit] := by
      simp [listenIters, stopSeen]
    simp [listenIters, stopSeen, h1]

/-- C3 counterexample: a transport failure whose exception has an empty
string description — a bare timeout, since `str(asyncio.TimeoutError())`
is `""` — stores the Command Result `{success: false, error: ""}`: the
stored error string is empty, refuting the claim that every
transport-level failure yields a non-empty error string. -/
theorem C3_counterexample :
    pressResult (.transportError timeoutErrStr)
        = .jobj [("success", .jbool false), ("error", .jstr "")]
    ∧ timeoutErrStr = "" :=
  ⟨rfl, rfl⟩

/-- C3 (amended): a response with status ≥ 400 and a JSON object body
with `error = "busy"` stores the Command Result
`{success: false, error: "busy"}`; with no `error` field the generic
`"unknown error"` text is used; and a transport-level failure stores
`{success: false, error: str(err)}` — the exception's description, which
is empty for a bare timeout and non-empty exactly when the description
is. -/
theorem C3_command_result_shape :
    ∀ (status : Nat) (fs : List (String × Json)) (desc : String),
      (400 ≤ status → jlookup fs "error" = some (.jstr "busy") →
        pressResult (.response status (.jobj fs)) =
          .jobj [("success", .jbool false), ("error", .jstr "busy")])
      ∧ (400 ≤ status → jlookup fs "error" = none →
        pressResult (.response status (.jobj fs)) =
          .jobj [("success", .jbool false), ("error", .jstr "unknown error")])
      ∧ pressResult (.transportError desc) =
          .jobj [("success", .jbool false), ("error", .jstr desc)] := by
  intro status fs desc
  refine ⟨?_, ?_, rfl⟩
  · intro h400 herr
    simp [pressResult, h400, herr]
  · intro h400 herr
    simp [pressResult, h400, herr]

/-- C3 witness: a 503 busy response, a 500 response with no error field,
and a connection failure with a non-empty description. -/
theorem C3_witness :
    pressResult (.response 503 (.jobj [("error", .jstr "busy")])) =
        .jobj [("success", .jbool false), ("error", .jstr "busy")]
    ∧ pressResult (.response 500 (.jobj [])) =
        .jobj [("success", .jbool false), ("error", .jstr "unknown error")]
    ∧ pressResult (.transportError "Connection refused") =
        .jobj [("success", .jbool false), ("error", .jstr "Connection refused")] := by
  refine ⟨?_, ?_, ?_⟩
  · exact (C3_command_result_shape 503 [("error", .jstr "busy")] "x").1
      (by omega) rfl
  · exact (C3_command_result_shape 500 [] "x").2.1 (by omega) rfl
  · exact (C3_command_result_shape 500 [] "Connection refused").2.2

/-- C10 counterexample: a huge integer under a numeric attribute makes
`float()` raise `OverflowError`, which `except (ValueError, TypeError)`
does not catch, so `normalize_attribute_value` raises instead of
returning — refuting the claim that it returns for every attribute name
and value. -/
theorem C10_counterexample :
    normalizeE "battery_charge" (.jnum ((10 ^ 400 : Int) : Rat))
        = .error .overflowError
    ∧ pyFloat (.jnum ((10 ^ 400 : Int) : Rat)) = .error .overflowError := by
  have hle : FLOAT_OVERFLOW_BOUND ≤ (((10 : Int) ^ 400 : Int) : Rat).num := by
    have hnum : (((10 : Int) ^ 400 : Int) : Rat).num = (10 : Int) ^ 400 := by
      norm_num
    rw [hnum, FLOAT_OVERFLOW_BOUND]
    norm_num
  have hq : floatOverflows ((10 ^ 400 : Int) : Rat) = true := by
    have hden : (((10 : Int) ^ 400 : Int) : Rat).den = 1 := by norm_num
    rw [floatOverflows, hden, decide_eq_true hle]
    simp
  have hp : pyFloat (.jnum ((10 ^ 400 : Int) : Rat)) = .error .overflowError := by
    rw [pyFloat, if_pos hq]
  have hn : normalizeE "battery_charge" (.jnum ((10 ^ 400 : Int) : Rat))
      = catchValueType (.jnum ((10 ^ 400 : Int) : Rat))
        ((pyFloat (.jnum ((10 ^ 400 : Int) : Rat))).map
          fun x => PyValue.ofFloat x) := rfl
  refine ⟨?_, hp⟩
  rw [hn, hp]
  rfl

/-- `float()` never raises `AttributeError`. -/
theorem pyFloat_not_attributeError (v : Json) :
    pyFloat v ≠ .error .attributeError := by
  cases v with
  | jnum q =>
    rw [pyFloat]
    split <;> simp
  | jbool b => simp [pyFloat]
  | jnull => simp [pyFloat]
  | jarr xs => simp [pyFloat]
  | jobj fs => simp [pyFloat]
  | jstr s =>
    rw [pyFloat]
    cases hp : pyParseFloat s <;> simp

/-- C10 (amended): `normalize_attribute_value` returns without raising
except when a conversion attribute's value is an integer too large for a
double — then `float()`'s `OverflowError` escapes the
`except (ValueError, TypeError)` clause, and that is the only escape;
`None` yields `None`; for `time_left`, `time_on_battery` and the numeric
attributes a value `float()` rejects with `ValueError` or `TypeError` is
returned unchanged; and every attribute outside those groups passes its
value through unchanged. -/
theorem C10_normalize_identity :
    ∀ (attrName : String) (value : Json),
      normalizeE attrName .jnull = .ok (.ofJson .jnull)
      ∧ ((attrName = "time_left" ∨ attrName = "time_on_battery"
            ∨ attrName ∈ NUMERIC_ATTRS) →
          ∀ e, pyFloat value = .error e → e ≠ .overflowError →
            normalizeE attrName value = .ok (.ofJson value))
      ∧ ((¬ (attrName = "time_left" ∨ attrName = "time_on_battery"
            ∨ attrName ∈ NUMERIC_ATTRS)) →
          normalizeE attrName value = .ok (.ofJson value))
      ∧ (∀ er, normalizeE attrName value = .error er →
          er = .overflowError ∧ pyFloat value = .error .overflowError)
      ∧ (pyFloat value ≠ .error .overflowError →
          (normalizeE attrName value).isOk = true) := by
  intro attrName value
  have hconv : ∀ g : PyFloatVal → PyValue,
      ((∀ e, pyFloat value = .error e → e ≠ .overflowError →
          catchValueType value ((pyFloat value).map g) = .ok (.ofJson value))
      ∧ (∀ er, catchValueType value ((pyFloat value).map g) = .error er →
          er = .overflowError ∧ pyFloat value = .error .overflowError)
      ∧ (pyFloat value ≠ .error .overflowError →
          (catchValueType value ((pyFloat value).map g)).isOk = true)) := by
    intro g
    cases hf : pyFloat value with
    | ok x =>
      refine ⟨fun e he _ => absurd he (by simp), ?_, fun _ => rfl⟩
      intro er her
      simp [catchValueType, Except.map] at her
    | error e =>
      cases e with
      | valueError =>
        refine ⟨fun _ _ _ => rfl, ?_, fun _ => rfl⟩
        intro er her
        simp [catchValueType, Except.map] at her
      | typeError =>
        refine ⟨fun _ _ _ => rfl, ?_, fun _ => rfl⟩
        intro er her
        simp [catchValueType, Except.map] at her
      | attributeError => exact absurd hf (pyFloat_not_attributeError value)
      | overflowError =>
        refine ⟨?_, ?_, fun hne => absurd rfl hne⟩
        · intro e2 he2 hne
          exact absurd (Except.error.inj he2).symm hne
        · intro er her
          simp only [Except.map, catchValueType] at her
          exact ⟨(Except.error.inj her).symm, rfl⟩
  by_cases hnull : value = .jnull
  · subst hnull
    refine ⟨rfl, fun _ _ _ _ => rfl, fun _ => rfl, ?_, fun _ => rfl⟩
    intro er her
    simp [normalizeE] at her
  · have hv : normalizeE attrName value =
        (if attrName = "time_left" then
          catchValueType value
            ((pyFloat value).map fun x => .ofFloat (pyRound2V (pyFloatDiv x 60)))
        else if attrName = "time_on_battery" then
          catchValueType value ((pyFloat value).map fun x => .ofFloat x)
        else if attrName ∈ NUMERIC_ATTRS then
          catchValueType value ((pyFloat value).map fun x => .ofFloat x)
        else .ok (.ofJson value)) := by
      cases value <;> first | (exact absurd rfl hnull) | rfl
    rw [hv]
    by_cases h1 : attrName = "time_left"
    · rw [if_pos h1]
      exact ⟨rfl, fun _ e he hne => (hconv _).1 e he hne, 
        fun hn => absurd (Or.inl h1) hn, (hconv _).2.1, (hconv _).2.2⟩
    · rw [if_neg h1]
      by_cases h2 : attrName = "time_on_battery"
      · rw [if_pos h2]
        exact ⟨rfl, fun _ e he hne => (hconv _).1 e he hne,
          fun hn => absurd (Or.inr (Or.inl h2)) hn, (hconv _).2.1, (hconv _).2.2⟩
      · rw [if_neg h2]
        by_cases h3 : attrName ∈ NUMERIC_ATTRS
        · rw [if_pos h3]
          exact ⟨rfl, fun _ e he hne => (hconv _).1 e he hne,
            fun hn => absurd (Or.inr (Or.inr h3)) hn, (hconv _).2.1, (hconv _).2.2⟩
        · rw [if_neg h3]
          refine ⟨rfl, ?_, fun _ => rfl, ?_, fun _ => rfl⟩
          · intro hc e he hne
            rcases hc with hc | hc | hc
            · exact absurd hc h1
            · exact absurd hc h2
            · exact absurd hc h3
          · intro er her
            simp at her

/-- C10 witness: an unparsable string under a numeric attribute passes
through unchanged, an attribute outside all groups passes through, `None`
maps to `None`, and a list value (a `TypeError` for `float()`) is caught. -/
theorem C10_witness :
    normalizeE "battery_charge" (.jstr "twelve") = .ok (.ofJson (.jstr "twelve"))
    ∧ normalizeE "firmware_rev" (.jstr "1.2.3") = .ok (.ofJson (.jstr "1.2.3"))
    ∧ normalizeE "time_left" .jnull = .ok (.ofJson .jnull)
    ∧ (normalizeE "time_left" (.jarr [])).isOk = true := by
  refine ⟨?_, ?_, ?_, ?_⟩
  · exact (C10_normalize_identity "battery_charge" (.jstr "twelve")).2.1
      (Or.inr (Or.inr (by decide))) .valueError rfl (by decide)
  · exact (C10_normalize_identity "firmware_rev" (.jstr "1.2.3")).2.2.1
      (by intro h; rcases h with h | h | h <;> revert h <;> decide)
  · exact (C10_normalize_identity "time_left" .jnull).1
  · exact (C10_normalize_identity "time_left" (.jarr [])).2.2.2.2
      (by intro h; exact absurd (Except.error.inj h) (by decide))

/-- On a fetch result whose entries are all objects, the name
comprehension does not raise and yields the truthy names. -/
theorem seedNames_of_allObj :
    ∀ l : List Json, allObj l = true → seedNames l = .ok (fetchedNames l) := by
  intro l
  induction l with
  | nil => intro _; rfl
  | cons e rest ih =>
    intro h
    rw [allObj, List.all_cons] at h
    obtain ⟨h1, h2⟩ := Bool.and_eq_true_iff.mp h
    cases e with
    | jobj fs =>
      have hr := ih h2
      simp [seedNames, fetchedNames, hr, Except.map]
    | jnull => simp [isObj] at h1
    | jbool b => simp [isObj] at h1
    | jnum q => simp [isObj] at h1
    | jstr s2 => simp [isObj] at h1
    | jarr xs => simp [isObj] at h1

/-- One iteration of the seed retry loop: stop with the fetched data when
the early-stop condition holds, otherwise sleep (unless this was the last
attempt) and continue. -/
theorem seedLoopFrom_step (configured : List String) (fetches : Nat → List Json)
    (attempt r : Nat) (prev : List Json) (cnt slp : Nat)
    (h : allObj (fetches attempt) = true) :
    seedLoopFrom configured fetches attempt (r + 1) prev cnt slp =
      if stopCond configured (fetches attempt) = true then
        .ok ⟨fetches attempt, cnt + 1, slp⟩
      else
        seedLoopFrom configured fetches (attempt + 1) r (fetches attempt) (cnt + 1)
          (if r = 0 then slp else slp + 1) := by
  by_cases hemp : (fetches attempt).isEmpty = true
  · have hsc : stopCond configured (fetches attempt) = false := by
      simp [stopCond, hemp]
    rw [seedLoopFrom, if_pos hemp, hsc]
    simp
  · rw [seedLoopFrom, if_neg hemp, seedNames_of_allObj _ h]
    by_cases hmiss :
        (missingNames configured (fetchedNames (fetches attempt))).isEmpty = true
    · have hsc : stopCond configured (fetches attempt) = true := by
        rw [stopCond, hmiss]
        simp only [Bool.and_true, Bool.not_eq_true']
        simpa using hemp
      rw [hsc]
      simp [hmiss]
    · have hsc : stopCond configured (fetches attempt) = false := by
        rw [stopCond]
        simp [hmiss]
      rw [hsc]
      simp [hmiss]

/-- C4: when every fetched entry is an object, the seed retry loop makes
`seedCount` fetches — at most 3 — stopping early exactly where the stop
condition first holds, finishes with the data of its last fetch, and
sleeps once between consecutive attempts; the stop condition holds exactly
when the fetch is non-empty and every configured name appears among its
entries' `device_name` fields, which for an empty allow-list degenerates
to the fetch being non-empty. -/
theorem C4_seed_convergence :
    ∀ (configured : List String) (fetches : Nat → List Json),
      (∀ i, allObj (fetches i) = true) →
      (seedLoop configured fetches =
        .ok ⟨fetches (seedCount configured fetches - 1),
             seedCount configured fetches, seedCount configured fetches - 1⟩
      ∧ seedCount configured fetches ≤ 3
      ∧ (∀ l, stopCond configured l = true ↔
          (l ≠ [] ∧ ∀ n ∈ configured, pyMem (.jstr n) (fetchedNames l) = true))
      ∧ (∀ l, stopCond ([] : List String) l = true ↔ l ≠ [])) := by
  intro c f hf
  have hiff : ∀ (c2 : List String) (l : List Json), stopCond c2 l = true ↔
      (l ≠ [] ∧ ∀ n ∈ c2, pyMem (.jstr n) (fetchedNames l) = true) := by
    intro c2 l
    rw [stopCond, Bool.and_eq_true, Bool.not_eq_true']
    rw [List.isEmpty_eq_false_iff_exists_mem]
    constructor
    · rintro ⟨⟨x, hx⟩, hmiss⟩
      refine ⟨?_, ?_⟩
      · rintro rfl; cases hx
      · intro n hn
        by_contra hpm
        have hmem : n ∈ missingNames c2 (fetchedNames l) :=
          List.mem_filter.mpr ⟨hn, by simp [hpm]⟩
        rw [List.isEmpty_iff] at hmiss
        simp [hmiss] at hmem
    · rintro ⟨hne, hall⟩
      refine ⟨?_, ?_⟩
      · rcases List.exists_mem_of_ne_nil l hne with ⟨x, hx⟩
        exact ⟨x, hx⟩
      · rw [List.isEmpty_iff, missingNames, List.filter_eq_nil_iff]
        intro n hn
        simp [hall n hn]
  refine ⟨?_, ?_, hiff c, ?_⟩
  · rw [seedLoop]
    rw [seedLoopFrom_step c f 0 2 [] 0 0 (hf 0)]
    cases h0 : stopCond c (f 0) with
    | true => simp [seedCount, h0]
    | false =>
      rw [if_neg (by simp [h0])]
      rw [seedLoopFrom_step c f 1 1 (f 0) 1 _ (hf 1)]
      cases h1 : stopCond c (f 1) with
      | true =>
        rw [if_pos (by simp [h1])]
        simp [seedCount, h0, h1]
      | false =>
        rw [if_neg (by simp [h1])]
        rw [seedLoopFrom_step c f 2 0 (f 1) 2 _ (hf 2)]
        cases h2 : stopCond c (f 2) with
        | true =>
          rw [if_pos (by simp [h2])]
          simp [seedCount, h0, h1]
        | false =>
          rw [if_neg (by simp [h2])]
          rw [seedLoopFrom]
          simp [seedCount, h0, h1]
  · rw [seedCount]
    split <;> try split
    all_goals omega
  · intro l
    rw [hiff [] l]
    simp

/-- C4 witness: with allow-list `{a, b}` and fetches `[a], [a], [a, b]`
the loop stops after the third fetch, having slept twice, with both
devices present in the final data. -/
theorem C4_witness :
    seedLoop ["a", "b"] seedScenario = .ok ⟨[devA, devB], 3, 2⟩
    ∧ pyMem (.jstr "a") (fetchedNames [devA, devB]) = true
    ∧ pyMem (.jstr "b") (fetchedNames [devA, devB]) = true := by
  have hobj : ∀ i, allObj (seedScenario i) = true := by
    intro i
    match i with
    | 0 => rfl
    | 1 => rfl
    | n + 2 => rfl
  have h := (C4_seed_convergence ["a", "b"] seedScenario hobj).1
  have hc : seedCount ["a", "b"] seedScenario = 3 := by decide
  rw [hc] at h
  exact ⟨h, rfl, rfl⟩

/-- The candidate walk only ever grows the `added` set. -/
theorem processCands_added_mono (ks : List String) :
    ∀ added x, x ∈ added → x ∈ (processCands added ks).1 := by
  induction ks with
  | nil =>
    intro added x hx
    simpa [processCands] using hx
  | cons k ks ih =>
    intro added x hx
    by_cases hk : k ∈ added
    · rw [processCands, if_pos hk]
      exact ih added x hx
    · rw [processCands, if_neg hk]
      exact ih (k :: added) x (List.mem_cons_of_mem k hx)

/-- Every key the candidate walk emits was not in `added` beforehand. -/
theorem processCands_emitted_new (ks : List String) :
    ∀ added x, x ∈ (processCands added ks).2 → x ∉ added := by
  induction ks with
  | nil =>
    intro added x hx
    simp [processCands] at hx
  | cons k ks ih =>
    intro added x hx
    by_cases hk : k ∈ added
    · rw [processCands, if_pos hk] at hx
      exact ih added x hx
    · rw [processCands, if_neg hk] at hx
      rcases List.mem_cons.mp hx with rfl | hx2
      · exact hk
      · intro hmem
        exact ih (k :: added) x hx2 (List.mem_cons_of_mem k hmem)

/-- Every key the candidate walk emits ends up in the `added` set. -/
theorem processCands_emitted_added (ks : List String) :
    ∀ added x, x ∈ (processCands added ks).2 → x ∈ (processCands added ks).1 := by
  induction ks with
  | nil =>
    intro added x hx
    simp [processCands] at hx
  | cons k ks ih =>
    intro added x hx
    by_cases hk : k ∈ added
    · rw [processCands, if_pos hk] at hx ⊢
      exact ih added x hx
    · rw [processCands, if_neg hk] at hx ⊢
      rcases List.mem_cons.mp hx with rfl | hx2
      · exact processCands_added_mono ks (x :: added) x (List.mem_cons_self x added)
      · exact ih (k :: added) x hx2

/-- The candidate walk emits no key twice. -/
theorem processCands_emitted_nodup (ks : List String) :
    ∀ added, (processCands added ks).2.Nodup := by
  induction ks with
  | nil =>
    intro added
    simp [processCands]
  | cons k ks ih =>
    intro added
    by_cases hk : k ∈ added
    · rw [processCands, if_pos hk]
      exact ih added
    · rw [processCands, if_neg hk]
      refine List.nodup_cons.mpr ⟨?_, ih (k :: added)⟩
      intro hmem
      exact processCands_emitted_new ks (k :: added) k hmem
        (List.mem_cons_self k added)

/-- A pass sequence only ever grows the `added` set. -/
theorem runPasses_added_mono (candFn : String → DiscDevice → List String)
    (seq : List (List (String × DiscDevice) × List String)) :
    ∀ added x, x ∈ added → x ∈ (runPasses candFn seq added).1 := by
  induction seq with
  | nil =>
    intro added x hx
    simpa [runPasses] using hx
  | cons p rest ih =>
    intro added x hx
    obtain ⟨devs, conf⟩ := p
    rw [runPasses]
    exact ih _ x (processCands_added_mono _ added x hx)

/-- Every key a pass sequence emits was not in `added` at its start. -/
theorem runPasses_emitted_new (candFn : String → DiscDevice → List String)
    (seq : List (List (String × DiscDevice) × List String)) :
    ∀ added x, x ∈ (runPasses candFn seq added).2 → x ∉ added := by
  induction seq with
  | nil =>
    intro added x hx
    simp [runPasses] at hx
  | cons p rest ih =>
    intro added x hx
    obtain ⟨devs, conf⟩ := p
    rw [runPasses] at hx
    rcases List.mem_append.mp hx with hx1 | hx2
    · exact processCands_emitted_new _ added x hx1
    · intro hmem
      exact ih _ x hx2 (processCands_added_mono _ added x hmem)

/-- A pass sequence emits each key at most once. -/
theorem runPasses_emitted_nodup (candFn : String → DiscDevice → List String)
    (seq : List (List (String × DiscDevice) × List String)) :
    ∀ added, (runPasses candFn seq added).2.Nodup := by
  induction seq with
  | nil =>
    intro added
    simp [runPasses]
  | cons p rest ih =>
    intro added
    obtain ⟨devs, conf⟩ := p
    rw [runPasses]
    rw [List.nodup_append]
    refine ⟨processCands_emitted_nodup _ added, ih _, ?_⟩
    intro x hx1 hx2
    exact runPasses_emitted_new candFn rest _ x hx2
      (processCands_emitted_added _ added x hx1)

/-- Splitting a pass sequence: the second part continues from the first
part's final `added` set. -/
theorem runPasses_append (candFn : String → DiscDevice → List String)
    (s1 s2 : List (List (String × DiscDevice) × List String)) :
    ∀ added, (runPasses candFn (s1 ++ s2) added).1
      = (runPasses candFn s2 (runPasses candFn s1 added).1).1 := by
  induction s1 with
  | nil =>
    intro added
    rfl
  | cons p rest ih =>
    intro added
    obtain ⟨devs, conf⟩ := p
    rw [List.cons_append, runPasses, runPasses]
    exact ih _

/-- C1: over any sequence of reconciliation passes of the sensor platform
and of the button platform, the `added` ledger never shrinks — its
initial keys survive, and any prefix's ledger is contained in the full
run's — and the emitted ("newly discovered") facet keys contain no
duplicates and none that were already in the ledger, so each facet is
handed to the entity-add callback at most once per connection. -/
theorem C1_discovery_monotone_and_once :
    ∀ (seq pre post : List (List (String × DiscDevice) × List String))
      (added : List String) (entry_id : String),
      (∀ x ∈ added, x ∈ (sensorRun seq added).1)
      ∧ (∀ x ∈ (sensorRun pre added).1, x ∈ (sensorRun (pre ++ post) added).1)
      ∧ (sensorRun seq added).2.Nodup
      ∧ (∀ x ∈ (sensorRun seq added).2, x ∉ added)
      ∧ (∀ x ∈ added, x ∈ (buttonRun entry_id seq added).1)
      ∧ (∀ x ∈ (buttonRun entry_id pre added).1,
          x ∈ (buttonRun entry_id (pre ++ post) added).1)
      ∧ (buttonRun entry_id seq added).2.Nodup
      ∧ (∀ x ∈ (buttonRun entry_id seq added).2, x ∉ added) := by
  intro seq pre post added entry_id
  refine ⟨?_, ?_, ?_, ?_, ?_, ?_, ?_, ?_⟩
  · exact fun x hx => runPasses_added_mono sensorCandidates seq added x hx
  · intro x hx
    rw [sensorRun, runPasses_append sensorCandidates pre post added]
    exact runPasses_added_mono sensorCandidates post _ x hx
  · exact runPasses_emitted_nodup sensorCandidates seq added
  · exact fun x hx => runPasses_emitted_new sensorCandidates seq added x hx
  · exact fun x hx => runPasses_added_mono (buttonCandidates entry_id) seq added x hx
  · intro x hx
    rw [buttonRun, runPasses_append (buttonCandidates entry_id) pre post added]
    exact runPasses_added_mono (buttonCandidates entry_id) post _ x hx
  · exact runPasses_emitted_nodup (buttonCandidates entry_id) seq added
  · exact fun x hx => runPasses_emitted_new (buttonCandidates entry_id) seq added x hx

/-- C1 witness: one pass over a store holding one NUT device with one
attribute, starting from a ledger holding an unrelated key. -/
theorem C1_witness :
    "k" ∈ (sensorRun [([("d", ⟨some (.jstr "nut"),
        [("battery_charge", .jnum 50)]⟩)], [])] ["k"]).1
    ∧ (sensorRun [([("d", ⟨some (.jstr "nut"),
        [("battery_charge", .jnum 50)]⟩)], [])] ["k"]).2.Nodup
    ∧ "k" ∈ (buttonRun "e" [([("d", ⟨some (.jstr "nut"),
        [("battery_charge", .jnum 50)]⟩)], [])] ["k"]).1
    ∧ (buttonRun "e" [([("d", ⟨some (.jstr "nut"),
        [("battery_charge", .jnum 50)]⟩)], [])] ["k"]).2.Nodup := by
  have h := C1_discovery_monotone_and_once
    [([("d", ⟨some (.jstr "nut"), [("battery_charge", .jnum 50)]⟩)], [])] [] []
    ["k"] "e"
  exact ⟨h.1 "k" (by decide), h.2.2.1, h.2.2.2.2.1 "k" (by decide),
    h.2.2.2.2.2.2.1⟩

/-- Atom equality is reflexive on hashable values. -/
theorem atomEq_refl (a : Json) (h : hashable a = true) : atomEq a a = true :=
  (atomEq_true_iff a a h).mpr rfl

/-- Python `in` distributes over list concatenation. -/
theorem pyMem_append (v : Json) :
    ∀ a b : List Json, pyMem v (a ++ b) = (pyMem v a || pyMem v b) := by
  intro a b
  induction a with
  | nil => simp [pyMem]
  | cons x xs ih => simp [pyMem, ih, Bool.or_assoc]

/-- Lookup after insertion: the inserted key maps to the new value, every
other key is untouched. -/
theorem dictLookup_insert (k v j : Json) (hk : hashable k = true) :
    ∀ d, keysHashable d = true →
      dictLookup (dictInsert d k v) j =
        if atomEq k j = true then some v else dictLookup d j := by
  intro d
  induction d with
  | nil => intro _; rfl
  | cons p rest ih =>
    obtain ⟨k1, v1⟩ := p
    intro hH
    rw [keysHashable, List.all_cons] at hH
    obtain ⟨h1, h2⟩ := Bool.and_eq_true_iff.mp hH
    by_cases he : atomEq k1 k = true
    · have hkk : k1 = k := (atomEq_true_iff k1 k h1).mp he
      subst hkk
      rw [dictInsert, if_pos he]
      by_cases hj : atomEq k1 j = true
      · simp [dictLookup, hj]
      · simp [dictLookup, hj]
    · rw [dictInsert, if_neg he]
      by_cases hj : atomEq k1 j = true
      · have hj1 : k1 = j := (atomEq_true_iff k1 j h1).mp hj
        have hkj : atomEq k j = false := by
          apply Bool.eq_false_iff.mpr
          intro hkj
          have hq : k = j := (atomEq_true_iff k j hk).mp hkj
          exact he ((atomEq_true_iff k1 k h1).mpr (hj1.trans hq.symm))
        simp [dictLookup, hj, hkj]
      · simp [dictLookup, hj, ih h2]

/-- Keys after insertion: unchanged when the key was present, appended
otherwise. -/
theorem dictKeys_insert (k v : Json) (_hk : hashable k = true) :
    ∀ d, keysHashable d = true →
      dictKeys (dictInsert d k v) =
        if pyMem k (dictKeys d) = true then dictKeys d else dictKeys d ++ [k] := by
  intro d
  induction d with
  | nil => intro _; rfl
  | cons p rest ih =>
    obtain ⟨k1, v1⟩ := p
    intro hH
    rw [keysHashable, List.all_cons] at hH
    obtain ⟨h1, h2⟩ := Bool.and_eq_true_iff.mp hH
    by_cases he : atomEq k1 k = true
    · rw [dictInsert, if_pos he]
      have hm : pyMem k (dictKeys ((k1, v1) :: rest)) = true := by
        simp [dictKeys, pyMem, he]
      rw [if_pos hm]
      rfl
    · rw [dictInsert, if_neg he]
      have he' : atomEq k1 k = false := Bool.eq_false_iff.mpr he
      have hm : pyMem k (dictKeys ((k1, v1) :: rest)) = pyMem k (dictKeys rest) := by
        simp [dictKeys, pyMem, he']
      rw [hm]
      have hkeys : dictKeys ((k1, v1) :: dictInsert rest k v)
          = k1 :: dictKeys (dictInsert rest k v) := rfl
      rw [hkeys, ih h2]
      by_cases hmr : pyMem k (dictKeys rest) = true
      · rw [if_pos hmr, if_pos hmr]
        rfl
      · rw [if_neg hmr, if_neg hmr]
        rfl

/-- Insertion of a hashable key preserves key hashability. -/
theorem keysHashable_insert (k v : Json) (hk : hashable k = true) :
    ∀ d, keysHashable d = true → keysHashable (dictInsert d k v) = true := by
  intro d
  induction d with
  | nil => intro _; simp [dictInsert, keysHashable, hk]
  | cons p rest ih =>
    obtain ⟨k1, v1⟩ := p
    intro hH
    rw [keysHashable, List.all_cons] at hH
    obtain ⟨h1, h2⟩ := Bool.and_eq_true_iff.mp hH
    by_cases he : atomEq k1 k = true
    · rw [dictInsert, if_pos he, keysHashable, List.all_cons]
      exact Bool.and_eq_true_iff.mpr ⟨h1, h2⟩
    · rw [dictInsert, if_neg he, keysHashable, List.all_cons]
      exact Bool.and_eq_true_iff.mpr ⟨h1, ih h2⟩

/-- Insertion preserves key distinctness. -/
theorem keysDistinct_insert (k v : Json) (hk : hashable k = true) :
    ∀ d, keysHashable d = true → keysDistinct d = true →
      keysDistinct (dictInsert d k v) = true := by
  intro d
  induction d with
  | nil => intro _ _; simp [dictInsert, keysDistinct, dictKeys, pyMem]
  | cons p rest ih =>
    obtain ⟨k1, v1⟩ := p
    intro hH hD
    rw [keysHashable, List.all_cons] at hH
    obtain ⟨h1, h2⟩ := Bool.and_eq_true_iff.mp hH
    rw [keysDistinct] at hD
    obtain ⟨hd1, hd2⟩ := Bool.and_eq_true_iff.mp hD
    by_cases he : atomEq k1 k = true
    · rw [dictInsert, if_pos he, keysDistinct]
      exact Bool.and_eq_true_iff.mpr ⟨hd1, hd2⟩
    · rw [dictInsert, if_neg he, keysDistinct]
      refine Bool.and_eq_true_iff.mpr ⟨?_, ih h2 hd2⟩
      rw [dictKeys_insert k v hk rest h2]
      by_cases hmr : pyMem k (dictKeys rest) = true
      · rw [if_pos hmr]
        exact hd1
      · rw [if_neg hmr]
        have hkk1 : atomEq k k1 = false := by
          apply Bool.eq_false_iff.mpr
          intro hkk
          have hq : k = k1 := (atomEq_true_iff k k1 hk).mp hkk
          exact he ((atomEq_true_iff k1 k h1).mpr hq.symm)
        rw [pyMem_append]
        have hd1' : pyMem k1 (dictKeys rest) = false := by
          simpa using hd1
        simp [pyMem, hkk1, hd1']

/-- A key absent from the key list has no binding. -/
theorem dictLookup_none_of_not_mem :
    ∀ d k, pyMem k (dictKeys d) = false → dictLookup d k = none := by
  intro d
  induction d with
  | nil => intro k _; rfl
  | cons p rest ih =>
    obtain ⟨k1, v1⟩ := p
    intro k h
    have h' : atomEq k1 k = false ∧ pyMem k (dictKeys rest) = false := by
      simpa [dictKeys, pyMem] using h
    rw [dictLookup, if_neg (by simp [h'.1])]
    exact ih k h'.2

/-- A key with a binding appears in the key list. -/
theorem dictLookup_mem_of_some :
    ∀ d k v, dictLookup d k = some v → pyMem k (dictKeys d) = true := by
  intro d
  induction d with
  | nil =>
    intro k v h
    simp [dictLookup] at h
  | cons p rest ih =>
    obtain ⟨k1, v1⟩ := p
    intro k v h
    by_cases he : atomEq k1 k = true
    · simp [dictKeys, pyMem, he]
    · rw [dictLookup, if_neg he] at h
      have hr := ih k v h
      rw [dictKeys] at hr
      simp [dictKeys, pyMem, hr]

/-- Extensionality: well-formed dicts with the same ordered key list and
the same lookups are equal. -/
theorem dict_ext :
    ∀ a b : List (Json × Json),
      keysHashable a = true → keysDistinct a = true → keysDistinct b = true →
      dictKeys a = dictKeys b → (∀ k, dictLookup a k = dictLookup b k) → a = b := by
  intro a
  induction a with
  | nil =>
    intro b _ _ _ hk _
    cases b with
    | nil => rfl
    | cons q brest => simp [dictKeys] at hk
  | cons p rest ih =>
    obtain ⟨k1, v1⟩ := p
    intro b hH hD hDb hk hl
    cases b with
    | nil => simp [dictKeys] at hk
    | cons q brest =>
      obtain ⟨k2, v2⟩ := q
      have hk12 : k1 = k2 ∧ dictKeys rest = dictKeys brest := by
        simpa [dictKeys] using hk
      obtain ⟨hkeq, hkr⟩ := hk12
      subst hkeq
      rw [keysHashable, List.all_cons] at hH
      obtain ⟨h1, h2⟩ := Bool.and_eq_true_iff.mp hH
      rw [keysDistinct] at hD hDb
      obtain ⟨hd1, hd2⟩ := Bool.and_eq_true_iff.mp hD
      obtain ⟨hb1, hb2⟩ := Bool.and_eq_true_iff.mp hDb
      have hrefl : atomEq k1 k1 = true := atomEq_refl k1 h1
      have hv : v1 = v2 := by
        have hx := hl k1
        rw [dictLookup, if_pos hrefl, dictLookup, if_pos hrefl] at hx
        exact Option.some.inj hx
      have htl : ∀ j, dictLookup rest j = dictLookup brest j := by
        intro j
        by_cases hj : atomEq k1 j = true
        · have hjk : k1 = j := (atomEq_true_iff k1 j h1).mp hj
          subst hjk
          have e1 : dictLookup rest k1 = none :=
            dictLookup_none_of_not_mem rest k1 (by simpa using hd1)
          have e2 : dictLookup brest k1 = none :=
            dictLookup_none_of_not_mem brest k1 (by
              rw [← hkr]
              simpa using hd1)
          rw [e1, e2]
        · have hx := hl j
          rw [dictLookup, if_neg hj, dictLookup, if_neg hj] at hx
          exact hx
      rw [hv, ih brest h2 hd2 hb2 hkr htl]

/-- A write recorded for the tail is still the last write of the whole
list. -/
theorem lastWrite_isSome_cons (e : Json) (rest : List Json) (k : Json)
    (h : (lastWrite rest k).isSome = true) :
    (lastWrite (e :: rest) k).isSome = true := by
  cases hlw : lastWrite rest k with
  | some v => cases e <;> simp [lastWrite, hlw]
  | none => rw [hlw] at h; simp at h

/-- The `updated_names` of a raise-free apply depend only on the entry
list. -/
theorem updateDevices_names :
    ∀ (l : List Json) (d d1 : List (Json × Json)) (ns : List Json),
      updateDevices d l = .ok (d1, ns) → ns = collectNames l := by
  intro l
  induction l with
  | nil =>
    intro d d1 ns h
    simp only [updateDevices, Except.ok.injEq, Prod.mk.injEq] at h
    rw [collectNames]
    exact h.2.symm
  | cons e rest ih =>
    intro d d1 ns h
    cases e with
    | jobj fs =>
      rw [updateDevices] at h
      simp only [entryName] at h
      by_cases ht : truthy ((jlookup fs "device_name").getD .jnull) = true
      · rw [if_pos ht] at h
        by_cases hh : hashable ((jlookup fs "device_name").getD .jnull) = true
        · rw [if_pos hh] at h
          cases hrec : updateDevices
              (dictInsert d ((jlookup fs "device_name").getD .jnull) (.jobj fs))
              rest with
          | ok p =>
            obtain ⟨d2, ns2⟩ := p
            rw [hrec] at h
            simp only [Except.ok.injEq, Prod.mk.injEq] at h
            obtain ⟨hd2, hns⟩ := h
            have hns2 := ih _ d2 ns2 hrec
            rw [collectNames, if_pos ht, ← hns, hns2]
          | error er =>
            rw [hrec] at h
            simp at h
        · rw [if_neg hh] at h
          simp at h
      · rw [if_neg ht] at h
        rw [collectNames, if_neg ht]
        exact ih d d1 ns h
    | jnull => simp [updateDevices, entryName] at h
    | jbool b => simp [updateDevices, entryName] at h
    | jnum q => simp [updateDevices, entryName] at h
    | jstr s2 => simp [updateDevices, entryName] at h
    | jarr xs => simp [updateDevices, entryName] at h

/-- Whether an apply raises depends only on the entry list, and a
raise-free apply yields the same `updated_names` from any starting dict. -/
theorem updateDevices_ok_any :
    ∀ (l : List Json) (d d1 : List (Json × Json)) (ns : List Json),
      updateDevices d l = .ok (d1, ns) →
      ∀ d3, ∃ d4, updateDevices d3 l = .ok (d4, ns) := by
  intro l
  induction l with
  | nil =>
    intro d d1 ns h d3
    simp only [updateDevices, Except.ok.injEq, Prod.mk.injEq] at h
    exact ⟨d3, by rw [updateDevices, ← h.2]⟩
  | cons e rest ih =>
    intro d d1 ns h d3
    cases e with
    | jobj fs =>
      rw [updateDevices] at h
      simp only [entryName] at h
      by_cases ht : truthy ((jlookup fs "device_name").getD .jnull) = true
      · rw [if_pos ht] at h
        by_cases hh : hashable ((jlookup fs "device_name").getD .jnull) = true
        · rw [if_pos hh] at h
          cases hrec : updateDevices
              (dictInsert d ((jlookup fs "device_name").getD .jnull) (.jobj fs))
              rest with
          | ok p =>
            obtain ⟨d2, ns2⟩ := p
            rw [hrec] at h
            simp only [Except.ok.injEq, Prod.mk.injEq] at h
            obtain ⟨hd2, hns⟩ := h
            obtain ⟨d4, hrec2⟩ := ih _ d2 ns2 hrec
              (dictInsert d3 ((jlookup fs "device_name").getD .jnull) (.jobj fs))
            refine ⟨d4, ?_⟩
            rw [updateDevices]
            simp only [entryName]
            rw [if_pos ht, if_pos hh, hrec2, ← hns]
          | error er =>
            rw [hrec] at h
            simp at h
        · rw [if_neg hh] at h
          simp at h
      · rw [if_neg ht] at h
        obtain ⟨d4, hrec2⟩ := ih d d1 ns h d3
        refine ⟨d4, ?_⟩
        rw [updateDevices]
        simp only [entryName]
        rw [if_neg ht]
        exact hrec2
    | jnull => simp [updateDevices, entryName] at h
    | jbool b => simp [updateDevices, entryName] at h
    | jnum q => simp [updateDevices, entryName] at h
    | jstr s2 => simp [updateDevices, entryName] at h
    | jarr xs => simp [updateDevices, entryName] at h

/-- Lookup after a raise-free apply: the last write for the key wins,
otherwise the original binding persists. -/
theorem updateDevices_lookup :
    ∀ (l : List Json) (d d1 : List (Json × Json)) (ns : List Json),
      keysHashable d = true → updateDevices d l = .ok (d1, ns) →
      ∀ k, dictLookup d1 k =
        match lastWrite l k with
        | some v => some v
        | none => dictLookup d k := by
  intro l
  induction l with
  | nil =>
    intro d d1 ns _ h k
    simp only [updateDevices, Except.ok.injEq, Prod.mk.injEq] at h
    rw [← h.1]
    simp [lastWrite]
  | cons e rest ih =>
    intro d d1 ns hH h k
    cases e with
    | jobj fs =>
      rw [updateDevices] at h
      simp only [entryName] at h
      by_cases ht : truthy ((jlookup fs "device_name").getD .jnull) = true
      · rw [if_pos ht] at h
        by_cases hh : hashable ((jlookup fs "device_name").getD .jnull) = true
        · rw [if_pos hh] at h
          cases hrec : updateDevices
              (dictInsert d ((jlookup fs "device_name").getD .jnull) (.jobj fs))
              rest with
          | ok p =>
            obtain ⟨d2, ns2⟩ := p
            rw [hrec] at h
            simp only [Except.ok.injEq, Prod.mk.injEq] at h
            obtain ⟨hd2, hns⟩ := h
            have hHi : keysHashable
                (dictInsert d ((jlookup fs "device_name").getD .jnull) (.jobj fs))
                = true := keysHashable_insert _ _ hh d hH
            have hihk := ih _ d2 ns2 hHi hrec k
            rw [dictLookup_insert _ _ k hh d hH] at hihk
            rw [← hd2, hihk]
            cases hlw : lastWrite rest k with
            | some v => simp [lastWrite, hlw]
            | none =>
              simp only [lastWrite, hlw, ht, hh, Bool.true_and]
              by_cases ha : atomEq ((jlookup fs "device_name").getD .jnull) k = true
              · simp [ha]
              · simp [Bool.eq_false_iff.mpr ha]
          | error er =>
            rw [hrec] at h
            simp at h
        · rw [if_neg hh] at h
          simp at h
      · rw [if_neg ht] at h
        have hihk := ih d d1 ns hH h k
        rw [hihk]
        cases hlw : lastWrite rest k with
        | some v => simp [lastWrite, hlw]
        | none => simp [lastWrite, hlw, Bool.eq_false_iff.mpr ht]
    | jnull => simp [updateDevices, entryName] at h
    | jbool b => simp [updateDevices, entryName] at h
    | jnum q => simp [updateDevices, entryName] at h
    | jstr s2 => simp [updateDevices, entryName] at h
    | jarr xs => simp [updateDevices, entryName] at h

/-- Keys after a raise-free apply: the original keys followed by the
first-write-order new keys. -/
theorem updateDevices_keys :
    ∀ (l : List Json) (d d1 : List (Json × Json)) (ns : List Json),
      keysHashable d = true → updateDevices d l = .ok (d1, ns) →
      dictKeys d1 = dictKeys d ++ newKeys l (dictKeys d) := by
  intro l
  induction l with
  | nil =>
    intro d d1 ns _ h
    simp only [updateDevices, Except.ok.injEq, Prod.mk.injEq] at h
    rw [← h.1]
    simp [newKeys]
  | cons e rest ih =>
    intro d d1 ns hH h
    cases e with
    | jobj fs =>
      rw [updateDevices] at h
      simp only [entryName] at h
      by_cases ht : truthy ((jlookup fs "device_name").getD .jnull) = true
      · rw [if_pos ht] at h
        by_cases hh : hashable ((jlookup fs "device_name").getD .jnull) = true
        · rw [if_pos hh] at h
          cases hrec : updateDevices
              (dictInsert d ((jlookup fs "device_name").getD .jnull) (.jobj fs))
              rest with
          | ok p =>
            obtain ⟨d2, ns2⟩ := p
            rw [hrec] at h
            simp only [Except.ok.injEq, Prod.mk.injEq] at h
            obtain ⟨hd2, hns⟩ := h
            have hHi : keysHashable
                (dictInsert d ((jlookup fs "device_name").getD .jnull) (.jobj fs))
                = true := keysHashable_insert _ _ hh d hH
            have hih := ih _ d2 ns2 hHi hrec
            rw [dictKeys_insert _ _ hh d hH] at hih
            rw [← hd2, hih]
            by_cases hm : pyMem ((jlookup fs "device_name").getD .jnull)
                (dictKeys d) = true
            · simp [hm, newKeys, ht]
            · simp [Bool.eq_false_iff.mpr hm, newKeys, ht, List.append_assoc]
          | error er =>
            rw [hrec] at h
            simp at h
        · rw [if_neg hh] at h
          simp at h
      · rw [if_neg ht] at h
        rw [ih d d1 ns hH h]
        simp [newKeys, Bool.eq_false_iff.mpr ht]
    | jnull => simp [updateDevices, entryName] at h
    | jbool b => simp [updateDevices, entryName] at h
    | jnum q => simp [updateDevices, entryName] at h
    | jstr s2 => simp [updateDevices, entryName] at h
    | jarr xs => simp [updateDevices, entryName] at h

/-- A raise-free apply preserves key hashability. -/
theorem updateDevices_keysHashable :
    ∀ (l : List Json) (d d1 : List (Json × Json)) (ns : List Json),
      keysHashable d = true → updateDevices d l = .ok (d1, ns) →
      keysHashable d1 = true := by
  intro l
  induction l with
  | nil =>
    intro d d1 ns hH h
    simp only [updateDevices, Except.ok.injEq, Prod.mk.injEq] at h
    rw [← h.1]
    exact hH
  | cons e rest ih =>
    intro d d1 ns hH h
    cases e with
    | jobj fs =>
      rw [updateDevices] at h
      simp only [entryName] at h
      by_cases ht : truthy ((jlookup fs "device_name").getD .jnull) = true
      · rw [if_pos ht] at h
        by_cases hh : hashable ((jlookup fs "device_name").getD .jnull) = true
        · rw [if_pos hh] at h
          cases hrec : updateDevices
              (dictInsert d ((jlookup fs "device_name").getD .jnull) (.jobj fs))
              rest with
          | ok p =>
            obtain ⟨d2, ns2⟩ := p
            rw [hrec] at h
            simp only [Except.ok.injEq, Prod.mk.injEq] at h
            obtain ⟨hd2, hns⟩ := h
            rw [← hd2]
            exact ih _ d2 ns2 (keysHashable_insert _ _ hh d hH) hrec
          | error er =>
            rw [hrec] at h
            simp at h
        · rw [if_neg hh] at h
          simp at h
      · rw [if_neg ht] at h
        exact ih d d1 ns hH h
    | jnull => simp [updateDevices, entryName] at h
    | jbool b => simp [updateDevices, entryName] at h
    | jnum q => simp [updateDevices, entryName] at h
    | jstr s2 => simp [updateDevices, entryName] at h
    | jarr xs => simp [updateDevices, entryName] at h

/-- A raise-free apply preserves key distinctness. -/
theorem updateDevices_keysDistinct :
    ∀ (l : List Json) (d d1 : List (Json × Json)) (ns : List Json),
      keysHashable d = true → keysDistinct d = true →
      updateDevices d l = .ok (d1, ns) → keysDistinct d1 = true := by
  intro l
  induction l with
  | nil =>
    intro d d1 ns _ hD h
    simp only [updateDevices, Except.ok.injEq, Prod.mk.injEq] at h
    rw [← h.1]
    exact hD
  | cons e rest ih =>
    intro d d1 ns hH hD h
    cases e with
    | jobj fs =>
      rw [updateDevices] at h
      simp only [entryName] at h
      by_cases ht : truthy ((jlookup fs "device_name").getD .jnull) = true
      · rw [if_pos ht] at h
        by_cases hh : hashable ((jlookup fs "device_name").getD .jnull) = true
        · rw [if_pos hh] at h
          cases hrec : updateDevices
              (dictInsert d ((jlookup fs "device_name").getD .jnull) (.jobj fs))
              rest with
          | ok p =>
            obtain ⟨d2, ns2⟩ := p
            rw [hrec] at h
            simp only [Except.ok.injEq, Prod.mk.injEq] at h
            obtain ⟨hd2, hns⟩ := h
            rw [← hd2]
            exact ih _ d2 ns2 (keysHashable_insert _ _ hh d hH)
              (keysDistinct_insert _ _ hh d hH hD) hrec
          | error er =>
            rw [hrec] at h
            simp at h
        · rw [if_neg hh] at h
          simp at h
      · rw [if_neg ht] at h
        exact ih d d1 ns hH hD h
    | jnull => simp [updateDevices, entryName] at h
    | jbool b => simp [updateDevices, entryName] at h
    | jnum q => simp [updateDevices, entryName] at h
    | jstr s2 => simp [updateDevices, entryName] at h
    | jarr xs => simp [updateDevices, entryName] at h

/-- If every key a raise-free apply writes is already in `seen`, it adds
no new keys relative to `seen`. -/
theorem updateDevices_newKeys_nil :
    ∀ (l : List Json) (d : List (Json × Json)) (p : List (Json × Json) × List Json),
      updateDevices d l = .ok p →
      ∀ seen, (∀ k, (lastWrite l k).isSome = true → pyMem k seen = true) →
      newKeys l seen = [] := by
  intro l
  induction l with
  | nil => intro d p _ seen _; rfl
  | cons e rest ih =>
    intro d p h seen hseen
    cases e with
    | jobj fs =>
      rw [updateDevices] at h
      simp only [entryName] at h
      by_cases ht : truthy ((jlookup fs "device_name").getD .jnull) = true
      · rw [if_pos ht] at h
        by_cases hh : hashable ((jlookup fs "device_name").getD .jnull) = true
        · rw [if_pos hh] at h
          cases hrec : updateDevices
              (dictInsert d ((jlookup fs "device_name").getD .jnull) (.jobj fs))
              rest with
          | ok p2 =>
            have hself : (lastWrite ((Json.jobj fs) :: rest)
                ((jlookup fs "device_name").getD .jnull)).isSome = true := by
              cases hlw : lastWrite rest ((jlookup fs "device_name").getD .jnull) with
              | some v => exact lastWrite_isSome_cons _ _ _ (by rw [hlw]; rfl)
              | none => simp [lastWrite, hlw, ht, hh, atomEq_refl _ hh]
            have hmem := hseen _ hself
            simp only [newKeys, ht, hmem, Bool.not_true, Bool.and_false,
              Bool.true_and, Bool.false_eq_true, if_false]
            apply ih _ p2 hrec
            intro k hk
            exact hseen k (lastWrite_isSome_cons _ _ _ hk)
          | error er =>
            rw [hrec] at h
            simp at h
        · rw [if_neg hh] at h
          simp at h
      · rw [if_neg ht] at h
        have hht := Bool.eq_false_iff.mpr ht
        simp only [newKeys, hht, Bool.false_and, Bool.false_eq_true, if_false]
        apply ih d p h
        intro k hk
        exact hseen k (lastWrite_isSome_cons _ _ _ hk)
    | jnull => simp [updateDevices, entryName] at h
    | jbool b => simp [updateDevices, entryName] at h
    | jnum q => simp [updateDevices, entryName] at h
    | jstr s2 => simp [updateDevices, entryName] at h
    | jarr xs => simp [updateDevices, entryName] at h

/-- An apply over well-shaped entries never raises. -/
theorem updateDevices_ok_of_good :
    ∀ (l : List Json) (d : List (Json × Json)),
      (∀ e ∈ l, goodEntry e = true) → ∃ p, updateDevices d l = .ok p := by
  intro l
  induction l with
  | nil =>
    intro d _
    exact ⟨(d, []), rfl⟩
  | cons e rest ih =>
    intro d hg
    have hge : goodEntry e = true := hg e (List.mem_cons_self e rest)
    have hgr : ∀ x ∈ rest, goodEntry x = true := fun x hx =>
      hg x (List.mem_cons_of_mem e hx)
    cases e with
    | jobj fs =>
      by_cases ht : truthy ((jlookup fs "device_name").getD .jnull) = true
      · have hh : hashable ((jlookup fs "device_name").getD .jnull) = true := by
          simp only [goodEntry, ht, Bool.not_true, Bool.false_or] at hge
          exact hge
        obtain ⟨⟨d2, ns2⟩, hrec⟩ :=
          ih (dictInsert d ((jlookup fs "device_name").getD .jnull) (.jobj fs)) hgr
        refine ⟨(d2, ((jlookup fs "device_name").getD .jnull) :: ns2), ?_⟩
        rw [updateDevices]
        simp only [entryName]
        rw [if_pos ht, if_pos hh, hrec]
      · obtain ⟨p, hrec⟩ := ih d hgr
        refine ⟨p, ?_⟩
        rw [updateDevices]
        simp only [entryName]
        rw [if_neg ht]
        exact hrec
    | jnull => simp [goodEntry] at hge
    | jbool b => simp [goodEntry] at hge
    | jnum q => simp [goodEntry] at hge
    | jstr s2 => simp [goodEntry] at hge
    | jarr xs => simp [goodEntry] at hge

/-- C5 counterexample, refuting both overreaches of the claim. First,
applying a snapshot list containing the non-object entry `1` raises
`AttributeError` — the entry's `.get("device_name")` lookup fails — so
the apply operation is not exception-free for arbitrary entry shapes.
Second, dropped entries are not counted: applies dropping zero, one and
two nameless entries produce the very same outcome — the mapping and the
`updated_names` list, which is also all the update's logging reports —
so no record distinguishes how many entries were dropped. -/
theorem C5_counterexample :
    updateDevices [] [.jnum 1] = .error .attributeError
    ∧ updateDevices [] [] = .ok ([], [])
    ∧ updateDevices [] [Json.jobj []] = .ok ([], [])
    ∧ updateDevices [] [Json.jobj [], Json.jobj []] = .ok ([], []) :=
  ⟨rfl, rfl, rfl, rfl⟩

/-- C5 (amended): entries that are JSON objects lacking a truthy
`device_name` are dropped — they cause no change to the device mapping,
and they are not counted: the apply's outcome is identical to applying
the list with the dropped entry removed — and the apply operation never
raises provided every entry in the list is a JSON object whose truthy
`device_name` (if any) is hashable; a non-object entry, or an unhashable
truthy name, raises. -/
theorem C5_malformed_tolerance :
    ∀ (d : List (Json × Json)) (l : List Json) (fs : List (String × Json))
      (rest : List Json),
      ((∀ e ∈ l, goodEntry e = true) → ∃ p, updateDevices d l = .ok p)
      ∧ (truthy ((jlookup fs "device_name").getD .jnull) = false →
          updateDevices d (.jobj fs :: rest) = updateDevices d rest) := by
  intro d l fs rest
  refine ⟨fun hg => updateDevices_ok_of_good l d hg, ?_⟩
  intro ht
  rw [updateDevices]
  simp only [entryName]
  rw [if_neg (by simp [ht])]

/-- C5 witness: a list holding one nameless object entry is applied
without raising, and the nameless entry is a no-op on the mapping. -/
theorem C5_witness :
    (∃ p, updateDevices [] [Json.jobj []] = .ok p)
    ∧ updateDevices [] [Json.jobj [("x", .jnum 1)]] = updateDevices [] [] := by
  have h := C5_malformed_tolerance [] [Json.jobj []] [("x", .jnum 1)] []
  refine ⟨h.1 ?_, h.2 rfl⟩
  intro e he
  rw [List.mem_singleton.mp he]
  rfl

/-- C8: applying the same snapshot list twice leaves the device mapping —
and the reported updated names — identical to applying it once, for any
well-formed starting mapping on which the apply does not raise. -/
theorem C8_idempotent_apply :
    ∀ (d : List (Json × Json)) (l : List Json) (d1 : List (Json × Json))
      (ns : List Json),
      keysHashable d = true → keysDistinct d = true →
      updateDevices d l = .ok (d1, ns) →
      updateDevices d1 l = .ok (d1, ns) := by
  intro d l d1 ns hH hD h
  have hH1 : keysHashable d1 = true := updateDevices_keysHashable l d d1 ns hH h
  have hD1 : keysDistinct d1 = true := updateDevices_keysDistinct l d d1 ns hH hD h
  obtain ⟨d2, h2⟩ := updateDevices_ok_any l d d1 ns h d1
  have hH2 : keysHashable d2 = true := updateDevices_keysHashable l d1 d2 ns hH1 h2
  have hD2 : keysDistinct d2 = true :=
    updateDevices_keysDistinct l d1 d2 ns hH1 hD1 h2
  have hnil : newKeys l (dictKeys d1) = [] := by
    apply updateDevices_newKeys_nil l d1 (d2, ns) h2
    intro k hk
    cases hlw : lastWrite l k with
    | none => rw [hlw] at hk; simp at hk
    | some v =>
      have hlook := updateDevices_lookup l d d1 ns hH h k
      rw [hlw] at hlook
      exact dictLookup_mem_of_some d1 k v hlook
  have hkeys : dictKeys d2 = dictKeys d1 := by
    rw [updateDevices_keys l d1 d2 ns hH1 h2, hnil, List.append_nil]
  have hlook : ∀ k, dictLookup d2 k = dictLookup d1 k := by
    intro k
    have e1 := updateDevices_lookup l d d1 ns hH h k
    have e2 := updateDevices_lookup l d1 d2 ns hH1 h2 k
    cases hlw : lastWrite l k with
    | some v =>
      rw [hlw] at e1 e2
      rw [e1, e2]
    | none =>
      rw [hlw] at e2
      exact e2
  have hd21 : d2 = d1 := dict_ext d2 d1 hH2 hD2 hD1 hkeys hlook
  rw [hd21] at h2
  exact h2

/-- C8 witness: re-applying a one-device snapshot list to the mapping it
produced changes nothing. -/
theorem C8_witness :
    updateDevices [(.jstr "a", .jobj [("device_name", .jstr "a")])]
        [.jobj [("device_name", .jstr "a")]] =
      .ok ([(.jstr "a", .jobj [("device_name", .jstr "a")])], [.jstr "a"]) :=
  C8_idempotent_apply [] [.jobj [("device_name", .jstr "a")]]
    [(.jstr "a", .jobj [("device_name", .jstr "a")])] [.jstr "a"] rfl rfl rfl

/-- C9: a raise-free apply replaces exactly the entries named in the list
and removes nothing: a key the list never writes keeps its old binding, a
key it writes ends bound to the last entry writing it, and every
previously present key is still present. -/
theorem C9_merge_not_replace :
    ∀ (d : List (Json × Json)) (l : List Json) (d1 : List (Json × Json))
      (ns : List Json) (k : Json),
      keysHashable d = true → updateDevices d l = .ok (d1, ns) →
      ((lastWrite l k = none → dictLookup d1 k = dictLookup d k)
        ∧ (∀ v, lastWrite l k = some v → dictLookup d1 k = some v)
        ∧ (∀ j, j ∈ dictKeys d → j ∈ dictKeys d1)) := by
  intro d l d1 ns k hH h
  have hlook := updateDevices_lookup l d d1 ns hH h k
  refine ⟨?_, ?_, ?_⟩
  · intro hnone
    rw [hnone] at hlook
    exact hlook
  · intro v hsome
    rw [hsome] at hlook
    exact hlook
  · intro j hj
    rw [updateDevices_keys l d d1 ns hH h]
    exact List.mem_append_left _ hj

/-- C9 witness: applying a list naming only device `a` to a mapping that
knows device `b` leaves `b`'s binding untouched while storing `a`. -/
theorem C9_witness :
    dictLookup [(.jstr "b", devB), (.jstr "a", devA)] (.jstr "b")
        = dictLookup [(.jstr "b", devB)] (.jstr "b")
    ∧ dictLookup [(.jstr "b", devB), (.jstr "a", devA)] (.jstr "a") = some devA
    ∧ Json.jstr "b" ∈ dictKeys [(.jstr "b", devB), (.jstr "a", devA)] := by
  have h := C9_merge_not_replace [(.jstr "b", devB)] [devA]
    [(.jstr "b", devB), (.jstr "a", devA)] [.jstr "a"] (.jstr "b") rfl rfl
  have h2 := C9_merge_not_replace [(.jstr "b", devB)] [devA]
    [(.jstr "b", devB), (.jstr "a", devA)] [.jstr "a"] (.jstr "a") rfl rfl
  exact ⟨h.1 rfl, h2.2.1 devA rfl,
    h.2.2 (.jstr "b") (List.mem_cons_self _ _)⟩

end Ups
